import Mathlib

/-!
# Verification of the drop-off routing engine (`src/RouteDropOff.js`)

A shallow embedding of the Google Apps Script routing engine.  The
spreadsheet is modelled as a list of named sheets; a sheet is a list of
rows; a row is a list of cells.  A cell is either a string, a number, or
a date; a blank spreadsheet cell reads back as the empty string, exactly
as `getValues()` reports blanks as `''`.

JavaScript primitives used by the source are modelled explicitly:
`String(v)` as `jsString`, `Number(v)` as `jsNum`, truthiness as
`truthy`, `.trim()` as `jsTrim`, `.toUpperCase()` as `jsUpper`,
and `Array.prototype.join(sep)` as `joinStr`.
-/

set_option maxHeartbeats 1000000

/-- A spreadsheet cell value: a string, a number, or a date.  A blank
cell is `Cell.s ""` (matching `getValues()` which yields `''` for
blanks; the code's `v !== null` guard is folded into the same case). -/
inductive Cell where
  | s (v : String)
  | n (v : Nat)
  | d (t : Nat)
deriving DecidableEq

/-- The blank cell. -/
def emptyCell : Cell := Cell.s ""

/-- Models the source's presence test `v => v !== '' && v !== null`:
every cell except a blank string is present. -/
def isPresent (c : Cell) : Bool := c ≠ emptyCell

/-- JavaScript truthiness of a cell value: `''` and `0` are falsy,
every other string/number and every date is truthy. -/
def truthy : Cell → Bool
  | Cell.s v => v ≠ ""
  | Cell.n v => v ≠ 0
  | Cell.d _ => true

/-- Models `String(v)` / `.toString()`.  Dates render as an abstract
tag (their exact JS rendering is irrelevant to the program: date text
is never compared against any fixed string). -/
def jsString : Cell → String
  | Cell.s v => v
  | Cell.n v => Nat.repr v
  | Cell.d t => "@" ++ Nat.repr t

/-- Models `Number(v)`: numbers and dates coerce to their numeric
value, `''` to `0`, digit strings to their value, and anything else to
`NaN` (represented as `none`; `NaN === x` is false for every `x`). -/
def jsNum : Cell → Option Nat
  | Cell.n v => some v
  | Cell.d t => some t
  | Cell.s st => if st = "" then some 0 else st.toNat?

/-- Drop trailing whitespace from a character list. -/
def trimTrailing : List Char → List Char
  | [] => []
  | c :: cs =>
    match trimTrailing cs with
    | [] => if c.isWhitespace then [] else [c]
    | res => c :: res

/-- Models JavaScript `String.prototype.trim()`: remove leading and
trailing whitespace. -/
def jsTrim (s : String) : String :=
  ⟨trimTrailing (s.data.dropWhile Char.isWhitespace)⟩

/-- Models `String.prototype.toUpperCase()` (ASCII case mapping). -/
def jsUpper (s : String) : String := ⟨s.data.map Char.toUpper⟩

/-- Models `Array.prototype.join(sep)`. -/
def joinStr (sep : String) : List String → String
  | [] => ""
  | [a] => a
  | a :: rest => a ++ sep ++ joinStr sep rest

/-- A sheet: its list of rows (row 1 is the head). Cells missing from
the grid read back as blanks. -/
structure Sheet where
  rows : List (List Cell)
deriving DecidableEq

/-- The freshly inserted, fully blank sheet. -/
def emptySheet : Sheet := ⟨[]⟩

/-- Read one cell (1-based row and column); absent cells are blank. -/
def Sheet.cell (sh : Sheet) (r c : Nat) : Cell :=
  (sh.rows.getD (r - 1) []).getD (c - 1) emptyCell

/-- Does a row hold any content?  (Used to model `getLastRow`, which
reports the last row having any non-blank cell.) -/
def rowHasContent (row : List Cell) : Bool := row.any isPresent

/-- 1-based index of the last row with content, `0` if none. -/
def lastRowList : List (List Cell) → Nat
  | [] => 0
  | r :: rs =>
    match lastRowList rs with
    | 0 => if rowHasContent r then 1 else 0
    | n + 1 => n + 2

/-- Models `sheet.getLastRow()`. -/
def Sheet.lastRow (sh : Sheet) : Nat := lastRowList sh.rows

/-- Models `sheet.getRange(r, 1, 1, n).getValues()[0]`: the first `n`
cells of row `r`, blanks for absent cells. -/
def readRowCells (sh : Sheet) (r n : Nat) : List Cell :=
  (List.range n).map fun j => sh.cell r (j + 1)

/-- Pad a row list with blank rows up to length `n`. -/
def padRows (rows : List (List Cell)) (n : Nat) : List (List Cell) :=
  rows ++ List.replicate (n - rows.length) []

/-- Models `sheet.getRange(r, 1, 1, vals.length).setValues([vals])`:
overwrite columns `1..vals.length` of row `r`, leaving every other cell
in place (the grid grows as needed). -/
def Sheet.writeRowAt (sh : Sheet) (r : Nat) (vals : List Cell) : Sheet :=
  let rows := padRows sh.rows r
  ⟨rows.set (r - 1) (vals ++ (rows.getD (r - 1) []).drop vals.length)⟩

/-- Models `sheet.appendRow(vals)`: write after the last row with
content. -/
def appendRowSheet (sh : Sheet) (vals : List Cell) : Sheet :=
  sh.writeRowAt (sh.lastRow + 1) vals

/-- The whole spreadsheet: its sheets in tab order. -/
structure SS where
  sheets : List (String × Sheet)
deriving DecidableEq

/-- The names of all sheets, in tab order (`getSheets().map(getName)`). -/
def sheetNames (ss : SS) : List String := ss.sheets.map Prod.fst

/-- Models `ss.getSheetByName(name)` (exact name match). -/
def getSheetByName (ss : SS) (name : String) : Option Sheet :=
  (ss.sheets.find? fun p => decide (p.1 = name)).map fun p => p.2

/-- Models `ss.insertSheet(name)`: a new blank sheet appended in tab
order. -/
def insertSheet (ss : SS) (name : String) : SS :=
  ⟨ss.sheets ++ [(name, emptySheet)]⟩

/-- Replace the contents of the (first) sheet named `name`.  This
models in-place mutation of a sheet object held by the script. -/
def updateFirst : List (String × Sheet) → String → (Sheet → Sheet) → List (String × Sheet)
  | [], _, _ => []
  | p :: rest, name, f =>
    if p.1 = name then (p.1, f p.2) :: rest else p :: updateFirst rest name f

/-- Apply `f` to the sheet named `name` (no-op when absent). -/
def updateSheet (ss : SS) (name : String) (f : Sheet → Sheet) : SS :=
  ⟨updateFirst ss.sheets name f⟩

/-- The sheet named `name`, or a blank sheet when absent. -/
def getSheetD (ss : SS) (name : String) : Sheet :=
  (getSheetByName ss name).getD emptySheet

/-! ## Constants of `src/RouteDropOff.js` -/

def DROP_OFF_SHEET : String := "DROP_OFF"
def CONFIG_SHEET : String := "CONFIG"
def LOG_SHEET : String := "LOG"

/-- `['PART','LOC','CUSTM','PRICE','DATE','DESCR']` (columns A-F). -/
def ORDERS_HEADER : List String := ["PART", "LOC", "CUSTM", "PRICE", "DATE", "DESCR"]

/-- `['PART','LOC','CUSTM','PRICE']` (columns A-D). -/
def ACCOUNT_HEADER : List String := ["PART", "LOC", "CUSTM", "PRICE"]

/-- The ledger's fixed header `['KEY','WHEN','DEST','ROW']`. -/
def LOG_HEADER : List String := ["KEY", "WHEN", "DEST", "ROW"]

/-! ## `nextRowByFirstNCols_` -/

/-- The index of the last `true` in a Boolean list, mirroring the
source's backward `for` loop that stops at the first row (from the
bottom) having data. -/
def lastTrueIdx : List Bool → Option Nat
  | [] => none
  | b :: bs =>
    match lastTrueIdx bs with
    | some i => some (i + 1)
    | none => if b then some 0 else none

/-- `nextRowByFirstNCols_(sheet, N)`: the first row whose first `N`
columns are all empty, immediately after the last row with data there;
`2` for a header-only sheet or when columns `1..N` hold no data. -/
def nextRowByFirstNCols (sh : Sheet) (N : Nat) : Nat :=
  let last := sh.lastRow
  if last < 2 then 2
  else
    let height := last - 1
    let values := (List.range height).map fun i => readRowCells sh (2 + i) N
    match lastTrueIdx (values.map fun row => row.any isPresent) with
    | some i => 2 + i + 1
    | none => 2

/-! ## `lookupDestination_` -/

/-- The result of destination resolution: `{name, isDefault}`. -/
structure Dest where
  name : String
  isDefault : Bool
deriving DecidableEq

/-- The CONFIG data region: rows `2..lastRow`, columns A-C
(`cfg.getRange(2, 1, last - 1, 3).getValues()`). -/
def configRows (cfg : Sheet) : List (List Cell) :=
  (List.range (cfg.lastRow - 1)).map fun i => readRowCells cfg (2 + i) 3

/-- The first-pass condition of `lookupDestination_`:
`String(isDefault).toUpperCase() === 'TRUE' && target`. -/
def defRule (r : List Cell) : Bool :=
  decide (jsUpper (jsString (r.getD 2 emptyCell)) = "TRUE") && truthy (r.getD 1 emptyCell)

/-- First pass of `lookupDestination_`:
`if (String(isDefault).toUpperCase() === 'TRUE' && target) defaultTarget = target`.
The last qualifying rule wins. -/
def scanDefault (rows : List (List Cell)) : Option Cell :=
  rows.foldl (fun acc r => if defRule r then some (r.getD 1 emptyCell) else acc) none

/-- Second pass of `lookupDestination_`: the first rule whose code is
truthy (`if (!code) continue`) and matches `custm` after
trim+uppercase on both sides. -/
def exactMatch (custm : Cell) (rows : List (List Cell)) : Option (List Cell) :=
  rows.find? fun r =>
    truthy (r.getD 0 emptyCell) &&
      decide (jsUpper (jsTrim (jsString (r.getD 0 emptyCell)))
        = jsUpper (jsTrim (jsString custm)))

/-- `defaultTarget || 'ORDERS'` (with `defaultTarget` possibly null). -/
def orOrders (dflt : Option Cell) : Cell :=
  match dflt with
  | some c => if truthy c then c else Cell.s "ORDERS"
  | none => Cell.s "ORDERS"

/-- `(target || defaultTarget || 'ORDERS').toString()`. -/
def pickName (target : Cell) (dflt : Option Cell) : String :=
  jsString (if truthy target then target else orOrders dflt)

/-- `lookupDestination_(custm)`: resolve the destination from CONFIG;
`null` when CONFIG is absent or has no data rows. -/
def lookupDestination (custm : Cell) (ss : SS) : Option Dest :=
  match getSheetByName ss CONFIG_SHEET with
  | none => none
  | some cfg =>
    if cfg.lastRow < 2 then none
    else
      let rows := configRows cfg
      let dflt := scanDefault rows
      match exactMatch custm rows with
      | some r => some ⟨pickName (r.getD 1 emptyCell) dflt, false⟩
      | none => some ⟨jsString (orOrders dflt), true⟩

/-! ## `getOrCreateSheet_`, `ensureHeaders_` -/

/-- `getOrCreateSheet_(name)`: exact lookup of the trimmed name, then a
case/whitespace-tolerant scan, then creation under the trimmed name.
Returns the updated spreadsheet and the name of the sheet the caller
now holds. -/
def getOrCreateSheet (name : String) (ss : SS) : SS × String :=
  let wanted := jsTrim name
  match getSheetByName ss wanted with
  | some _ => (ss, wanted)
  | none =>
    match (sheetNames ss).find? fun nm => decide (jsUpper (jsTrim nm) = jsUpper wanted) with
    | some m => (ss, m)
    | none => (insertSheet ss wanted, wanted)

/-- `ensureHeaders_(sheet, header)`: rewrite row 1 only when the
uppercased current cells, joined with `'|'`, differ from the uppercased
expected header joined the same way. -/
def ensureHeaders (sh : Sheet) (header : List String) : Sheet :=
  let width := header.length
  let current := (readRowCells sh 1 width).map fun v => jsUpper (jsString v)
  let wanted := header.map jsUpper
  if joinStr "|" current ≠ joinStr "|" wanted then
    sh.writeRowAt 1 (header.map Cell.s)
  else sh

/-! ## LOG helpers -/

/-- `buildKey_(arrAtoF)`: trim each field's string form, join with
`'||'`, uppercase. -/
def buildKey (vals : List Cell) : String :=
  jsUpper (joinStr "||" (vals.map fun v => jsTrim (jsString v)))

/-- `rowWasLogged_(row)`: scan column D of the LOG sheet's rows
`2..lastRow` for a numeric match with `row`. -/
def rowWasLogged (row : Nat) (ss : SS) : Bool :=
  match getSheetByName ss LOG_SHEET with
  | none => false
  | some log =>
    let last := log.lastRow
    if last < 2 then false
    else
      ((List.range (last - 1)).map fun i => log.cell (2 + i) 4).any
        fun v => decide (jsNum v = some row)

/-- The cells `[key, new Date(), destName, row]` appended by
`appendLog_`. -/
def logEntryCells (now : Nat) (key destName : String) (row : Nat) : List Cell :=
  [Cell.s key, Cell.d now, Cell.s destName, Cell.n row]

/-- `appendLog_(key, destName, row)`: create the LOG sheet with its
header when absent, then append one entry. -/
def appendLog (now : Nat) (key destName : String) (row : Nat) (ss : SS) : SS :=
  match getSheetByName ss LOG_SHEET with
  | some _ =>
    updateSheet ss LOG_SHEET fun sh => appendRowSheet sh (logEntryCells now key destName row)
  | none =>
    let ss1 := updateSheet (insertSheet ss LOG_SHEET) LOG_SHEET
      fun sh => sh.writeRowAt 1 (LOG_HEADER.map Cell.s)
    updateSheet ss1 LOG_SHEET fun sh => appendRowSheet sh (logEntryCells now key destName row)

/-! ## `routeRowSafe_` and `withLock_` -/

/-- The header layout `routeRowSafe_` enforces on the resolved
destination: `ORDERS_HEADER` when the trimmed, uppercased name is
`'ORDERS'` or the destination is the default, else `ACCOUNT_HEADER`. -/
def headerFor (dest : Dest) : List String :=
  if jsUpper (jsTrim dest.name) = "ORDERS" || dest.isDefault then ORDERS_HEADER
  else ACCOUNT_HEADER

/-- The critical-section body of `routeRowSafe_(row)`.  Besides the new
spreadsheet state it reports, for specification purposes, the name of
the destination sheet written (`none` on every early return).  `now` is
the timestamp `new Date()` observed by `appendLog_`; the closing toast
is a pure notification and has no state effect. -/
def routeRowAux (now row : Nat) (ss : SS) : SS × Option String :=
  match getSheetByName ss DROP_OFF_SHEET with
  | none => (ss, none)
  | some drop =>
    let vals := readRowCells drop row 6
    if !vals.all isPresent then (ss, none)
    else if rowWasLogged row ss then (ss, none)
    else
      match lookupDestination (vals.getD 2 emptyCell) ss with
      | none => (ss, none)
      | some dest =>
        if dest.name = "" then (ss, none)
        else
          let pr := getOrCreateSheet dest.name ss
          let ss2 := updateSheet pr.1 pr.2 fun sh => ensureHeaders sh (headerFor dest)
          let next := nextRowByFirstNCols (getSheetD ss2 pr.2) 6
          let ss3 := updateSheet ss2 pr.2 fun sh => sh.writeRowAt next vals
          (appendLog now (buildKey vals) dest.name row ss3, some pr.2)

/-- The state transition of one `routeRowSafe_` body run. -/
def routeRowBody (now row : Nat) (ss : SS) : SS := (routeRowAux now row ss).1

/-- `withLock_(fn)`.  The source calls `lock.tryLock(5000)` but
discards its Boolean result, so `fn` runs whether or not the lock was
acquired; `acquired` records the discarded outcome. -/
def withLock (_acquired : Bool) (fn : SS → SS) (ss : SS) : SS := fn ss

/-- `routeRowSafe_(row)`: the body under `withLock_`. -/
def routeRowSafe (acquired : Bool) (now row : Nat) (ss : SS) : SS :=
  withLock acquired (routeRowBody now row) ss

/-- The six cells `A..F` of the staging row `row` as `routeRowSafe_`
reads them (all blank when the staging sheet is absent). -/
def dropFields (ss : SS) (row : Nat) : List Cell :=
  match getSheetByName ss DROP_OFF_SHEET with
  | none => List.replicate 6 emptyCell
  | some drop => readRowCells drop row 6

/-- Does the ledger, when present, already have its header row?  (True
whenever the ledger was created by `appendLog_` itself; false only for
an externally created, completely blank LOG sheet.) -/
def ledgerReady (ss : SS) : Bool :=
  match getSheetByName ss LOG_SHEET with
  | none => true
  | some sh => 1 ≤ sh.lastRow

/-- The ledger region `rowWasLogged_` scans: column D of rows
`2..lastRow` of one sheet. -/
def logColD (log : Sheet) : List Cell :=
  (List.range (log.lastRow - 1)).map fun i => log.cell (2 + i) 4

/-- Number of scanned ledger entries of one sheet whose column D
numerically equals `row`. -/
def sheetLogCount (row : Nat) (log : Sheet) : Nat :=
  ((logColD log).filter fun v => decide (jsNum v = some row)).length

/-- Number of ledger entries (rows `2..lastRow` of the LOG sheet) whose
column D numerically equals `row`. -/
def ledgerCount (row : Nat) (ss : SS) : Nat :=
  match getSheetByName ss LOG_SHEET with
  | none => 0
  | some log => sheetLogCount row log

/-- The ledger sheet `appendLog_` appends to: the existing LOG sheet,
or the freshly created one holding only the header row. -/
def logBaseSheet (ss : SS) : Sheet :=
  match getSheetByName ss LOG_SHEET with
  | some sh => sh
  | none => Sheet.writeRowAt ⟨[]⟩ 1 (LOG_HEADER.map Cell.s)

/-- Does row `r` (1-based) of `sh` hold data in its first `N`
columns? -/
def rowDataFirstN (sh : Sheet) (N r : Nat) : Bool :=
  (readRowCells sh r N).any isPresent

/-- The number of data rows (rows `2..`) with content in columns
`1..6`; the written-record count of a destination sheet. -/
def dataRowCount6 (sh : Sheet) : Nat :=
  (sh.rows.drop 1).countP fun row => (row.take 6).any isPresent

/-! ## Concrete example states used by witnesses and counterexamples -/

/-- A staging sheet: header plus one complete record in row 2. -/
def exDrop : Sheet :=
  ⟨[[Cell.s "PART", Cell.s "LOC", Cell.s "CUSTM", Cell.s "PRICE", Cell.s "DATE", Cell.s "DESCR"],
    [Cell.s "P1", Cell.s "L1", Cell.s "ACME", Cell.n 9, Cell.d 5, Cell.s "X"]]⟩

/-- A config sheet: one exact rule `ACME → ORDERS`, flagged default. -/
def exCfg : Sheet :=
  ⟨[[Cell.s "CODE", Cell.s "DEST", Cell.s "DEFAULT"],
    [Cell.s "ACME", Cell.s "ORDERS", Cell.s "TRUE"]]⟩

/-- Staging plus config, no ledger, no destination yet. -/
def exSS : SS := ⟨[(DROP_OFF_SHEET, exDrop), (CONFIG_SHEET, exCfg)]⟩

/-- A staging sheet whose row 2 lacks its price (column D blank). -/
def exDropIncomplete : Sheet :=
  ⟨[[Cell.s "PART", Cell.s "LOC", Cell.s "CUSTM", Cell.s "PRICE", Cell.s "DATE", Cell.s "DESCR"],
    [Cell.s "P1", Cell.s "L1", Cell.s "ACME", emptyCell, Cell.d 5, Cell.s "X"]]⟩

/-- Staging with an incomplete row, plus config. -/
def exSSIncomplete : SS := ⟨[(DROP_OFF_SHEET, exDropIncomplete), (CONFIG_SHEET, exCfg)]⟩

/-- A spreadsheet with no CONFIG sheet at all. -/
def exSSNoCfg : SS := ⟨[(DROP_OFF_SHEET, exDrop)]⟩

/-- A config sheet holding only its header row. -/
def exCfgEmpty : Sheet := ⟨[[Cell.s "CODE", Cell.s "DEST", Cell.s "DEFAULT"]]⟩

/-- A spreadsheet whose CONFIG sheet has no rules. -/
def exSSEmptyCfg : SS := ⟨[(DROP_OFF_SHEET, exDrop), (CONFIG_SHEET, exCfgEmpty)]⟩

/-- A config with a blank classification code on a rule
(`["", "ZTAB", ""]`). -/
def exCfgBlankCode : Sheet :=
  ⟨[[Cell.s "CODE", Cell.s "DEST", Cell.s "DEFAULT"],
    [Cell.s "", Cell.s "ZTAB", Cell.s ""]]⟩

/-- Spreadsheet for the blank-code resolution counterexample. -/
def exSSBlankCode : SS := ⟨[(CONFIG_SHEET, exCfgBlankCode)]⟩

/-- A config with a default rule followed by an exact rule, as in the
spec's exact-match-precedence scenario. -/
def exCfgPrecedence : Sheet :=
  ⟨[[Cell.s "CODE", Cell.s "DEST", Cell.s "DEFAULT"],
    [Cell.s "X", Cell.s "ORDERS", Cell.s "TRUE"],
    [Cell.s "ACME", Cell.s "ACME_TAB", Cell.s ""]]⟩

/-- Spreadsheet for the exact-match-precedence witness. -/
def exSSPrecedence : SS := ⟨[(CONFIG_SHEET, exCfgPrecedence)]⟩

/-- A config with two default-flagged rules, the second with a blank
destination. -/
def exCfgTwoDefaults : Sheet :=
  ⟨[[Cell.s "CODE", Cell.s "DEST", Cell.s "DEFAULT"],
    [Cell.s "X", Cell.s "A", Cell.s "TRUE"],
    [Cell.s "Y", Cell.s "", Cell.s "TRUE"]]⟩

/-- Spreadsheet for the default-selection counterexample. -/
def exSSTwoDefaults : SS := ⟨[(CONFIG_SHEET, exCfgTwoDefaults)]⟩

/-- A spreadsheet holding one sheet whose name differs from `"ACME"`
only by case and surrounding whitespace. -/
def exSSLower : SS := ⟨[(" acme ", emptySheet)]⟩

/-- A destination sheet: header, data in rows 2-5 of columns A-F, a
stray value in column G of row 6. -/
def exDest : Sheet :=
  ⟨[[Cell.s "PART", Cell.s "LOC", Cell.s "CUSTM", Cell.s "PRICE", Cell.s "DATE", Cell.s "DESCR"],
    [Cell.s "a", Cell.s "b", Cell.s "c", Cell.n 1, Cell.d 1, Cell.s "d"],
    [Cell.s "a", Cell.s "b", Cell.s "c", Cell.n 2, Cell.d 2, Cell.s "d"],
    [Cell.s "a", Cell.s "b", Cell.s "c", Cell.n 3, Cell.d 3, Cell.s "d"],
    [Cell.s "a", Cell.s "b", Cell.s "c", Cell.n 4, Cell.d 4, Cell.s "d"],
    [emptyCell, emptyCell, emptyCell, emptyCell, emptyCell, emptyCell, Cell.s "stray"]]⟩

/-! # Lemmas and claim theorems -/

/-- Unfolding `routeRowSafe` to the critical-section body: the source
discards the result of `lock.tryLock(5000)`, so the body runs whether
or not the lock was acquired. -/
lemma routeRowSafe_eq_body (acq : Bool) (now row : Nat) (ss : SS) :
    routeRowSafe acq now row ss = (routeRowAux now row ss).1 := rfl

/-- **C2** (code bug).  The spec requires that a routing attempt whose
lock acquisition times out is abandoned with no reads trusted for
writing, no destination write and no ledger append.  The source calls
`lock.tryLock(5000)` but ignores its Boolean result, so on timeout
(`acquired = false`) the whole body still runs: on the concrete state
`exSS` the store changes, the row gets logged and a ledger entry is
appended even though the lock was never acquired. -/
theorem routeRow_runs_without_lock :
    withLock false (routeRowBody 7 2) exSS = routeRowBody 7 2 exSS
      ∧ routeRowSafe false 7 2 exSS ≠ exSS
      ∧ rowWasLogged 2 (routeRowSafe false 7 2 exSS) = true
      ∧ ledgerCount 2 (routeRowSafe false 7 2 exSS) = 1 :=
  ⟨rfl, by decide, by decide, by decide⟩

/-- **C3**.  If any of the six staged fields at `row` is empty, the
routing attempt leaves the whole store untouched (so in particular no
ledger entry is appended and no destination write occurs), for every
combination of empty fields and whether or not the lock was
acquired. -/
theorem routeRow_incomplete_noop (acq : Bool) (now row : Nat) (ss : SS)
    (h : ∃ c ∈ dropFields ss row, isPresent c = false) :
    routeRowSafe acq now row ss = ss := by
  obtain ⟨c, hc, hcp⟩ := h
  rw [routeRowSafe_eq_body]
  simp only [routeRowAux]
  cases hd : getSheetByName ss DROP_OFF_SHEET with
  | none => rfl
  | some drop =>
    have hall : (readRowCells drop row 6).all isPresent = false := by
      rw [dropFields, hd] at hc
      exact List.all_eq_false.mpr ⟨c, hc, by simp [hcp]⟩
    simp [hall]

/-- Witness for C3: the staged row of `exSSIncomplete` lacks its price,
and routing it changes nothing. -/
theorem routeRow_incomplete_noop_witness :
    routeRowSafe true 7 2 exSSIncomplete = exSSIncomplete :=
  routeRow_incomplete_noop true 7 2 exSSIncomplete ⟨emptyCell, by decide, rfl⟩

/-- **C4** (amended).  With CONFIG absent or holding no rules,
resolution tolerates the situation without failing and without
mutating anything, but it yields *no* destination (`null`), not the
hard-coded `ORDERS` fallback; the routing attempt is then abandoned
with the store unchanged. -/
theorem lookupDestination_no_config (custm : Cell) (acq : Bool) (now row : Nat) (ss : SS)
    (h : getSheetByName ss CONFIG_SHEET = none ∨
      ∃ cfg, getSheetByName ss CONFIG_SHEET = some cfg ∧ cfg.lastRow < 2) :
    lookupDestination custm ss = none ∧ routeRowSafe acq now row ss = ss := by
  have hl : ∀ c : Cell, lookupDestination c ss = none := by
    intro c
    rcases h with hn | ⟨cfg, hcfg, hlt⟩
    · simp [lookupDestination, hn]
    · simp [lookupDestination, hcfg, hlt]
  refine ⟨hl custm, ?_⟩
  rw [routeRowSafe_eq_body]
  simp only [routeRowAux]
  cases hd : getSheetByName ss DROP_OFF_SHEET with
  | none => rfl
  | some drop => simp [hl]

/-- Witness for C4: on a spreadsheet with no CONFIG sheet, resolution
returns `none` and routing a complete row changes nothing. -/
theorem lookupDestination_no_config_witness :
    lookupDestination (Cell.s "ACME") exSSNoCfg = none
      ∧ routeRowSafe true 7 2 exSSNoCfg = exSSNoCfg :=
  lookupDestination_no_config (Cell.s "ACME") true 7 2 exSSNoCfg (Or.inl (by decide))

/-- Counterexample for C4 as stated: for both a missing and an empty
CONFIG, `lookupDestination_` returns `null`, not the claimed
`("ORDERS", isDefault = true)`. -/
theorem lookupDestination_missing_config_counterexample :
    getSheetByName exSSNoCfg CONFIG_SHEET = none
      ∧ lookupDestination (Cell.s "ACME") exSSNoCfg ≠ some ⟨"ORDERS", true⟩
      ∧ (getSheetD exSSEmptyCfg CONFIG_SHEET).lastRow < 2
      ∧ lookupDestination (Cell.s "ACME") exSSEmptyCfg ≠ some ⟨"ORDERS", true⟩ := by
  refine ⟨by decide, by decide, by decide, by decide⟩

/-- **C10**.  The header layout enforced by `routeRowSafe_`: a
destination whose trimmed, uppercased name is `ORDERS` always gets the
full six-column layout, even when it was reached through an exact-match
rule (`isDefault = false`); the four-column minimal layout is enforced
exactly on destinations that are neither named `ORDERS` (after
trim/uppercase) nor flagged default. -/
theorem headerFor_spec (d : Dest) :
    (jsUpper (jsTrim d.name) = "ORDERS" → headerFor d = ORDERS_HEADER)
      ∧ (d.isDefault = true → headerFor d = ORDERS_HEADER)
      ∧ (headerFor d = ACCOUNT_HEADER ↔
          jsUpper (jsTrim d.name) ≠ "ORDERS" ∧ d.isDefault = false) := by
  have hne : ORDERS_HEADER ≠ ACCOUNT_HEADER := by decide
  by_cases h1 : jsUpper (jsTrim d.name) = "ORDERS" <;> cases hd : d.isDefault <;>
    simp [headerFor, h1, hd, hne, Ne.symm hne]

/-- Witness for C10: a non-default destination named `"orders"` gets
the full layout; a non-default destination named `"ACME"` gets the
minimal one. -/
theorem headerFor_spec_witness :
    headerFor ⟨"orders", false⟩ = ORDERS_HEADER
      ∧ headerFor ⟨"ACME", false⟩ = ACCOUNT_HEADER :=
  ⟨(headerFor_spec ⟨"orders", false⟩).1 (by decide),
    (headerFor_spec ⟨"ACME", false⟩).2.2.mpr ⟨by decide, rfl⟩⟩

/-- Counterexample for C9 as stated: creation does not use the exact
requested name.  Requesting `" ACME "` against an empty spreadsheet
creates a sheet named `"ACME"` (the trimmed name); no sheet named
`" ACME "` exists afterwards. -/
theorem getOrCreateSheet_trimmed_name_counterexample :
    sheetNames (getOrCreateSheet " ACME " ⟨[]⟩).1 = ["ACME"]
      ∧ (getOrCreateSheet " ACME " ⟨[]⟩).2 = "ACME"
      ∧ " ACME " ∉ sheetNames (getOrCreateSheet " ACME " ⟨[]⟩).1 := by
  refine ⟨by decide, by decide, by decide⟩

/-- The last character kept by `trimTrailing` is never whitespace. -/
lemma trimTrailing_getLast : ∀ (l : List Char) (c : Char),
    (trimTrailing l).getLast? = some c → c.isWhitespace = false := by
  intro l
  induction l with
  | nil => intro c h; simp [trimTrailing] at h
  | cons a as ih =>
    intro c h
    rw [show trimTrailing (a :: as) = match trimTrailing as with
        | [] => if a.isWhitespace then [] else [a]
        | res => a :: res from rfl] at h
    cases ht : trimTrailing as with
    | nil =>
      rw [ht] at h
      by_cases hw : a.isWhitespace
      · rw [if_pos hw] at h; simp at h
      · rw [if_neg hw] at h
        simp only [List.getLast?_singleton, Option.some.injEq] at h
        rw [← h]
        exact Bool.eq_false_iff.mpr hw
    | cons r rs =>
      rw [ht] at h
      rw [List.getLast?_cons_cons] at h
      exact ih c (ht ▸ h)

/-- A list not ending in whitespace is fixed by `trimTrailing`. -/
lemma trimTrailing_eq_self : ∀ (l : List Char),
    (∀ c, l.getLast? = some c → c.isWhitespace = false) → trimTrailing l = l := by
  intro l
  induction l with
  | nil => intro _; rfl
  | cons a as ih =>
    intro h
    cases as with
    | nil =>
      have ha := h a (by simp)
      simp [trimTrailing, ha]
    | cons b bs =>
      have has : trimTrailing (b :: bs) = b :: bs := by
        apply ih
        intro c hc
        exact h c (by rw [List.getLast?_cons_cons]; exact hc)
      rw [show trimTrailing (a :: b :: bs) = match trimTrailing (b :: bs) with
          | [] => if a.isWhitespace then [] else [a]
          | res => a :: res from rfl, has]

/-- `trimTrailing` is idempotent. -/
lemma trimTrailing_idem (l : List Char) : trimTrailing (trimTrailing l) = trimTrailing l :=
  trimTrailing_eq_self _ (trimTrailing_getLast l)

/-- The first character surviving `dropWhile` falsifies the predicate. -/
lemma dropWhile_head_false {p : Char → Bool} : ∀ {l : List Char} {c : Char} {cs : List Char},
    l.dropWhile p = c :: cs → p c = false := by
  intro l
  induction l with
  | nil => intro c cs h; simp [List.dropWhile] at h
  | cons a as ih =>
    intro c cs h
    rw [List.dropWhile_cons] at h
    by_cases hp : p a
    · rw [if_pos hp] at h; exact ih h
    · rw [if_neg hp] at h
      cases h
      exact Bool.eq_false_iff.mpr hp

/-- `trimTrailing` keeps the head of its input (or empties the list). -/
lemma trimTrailing_head : ∀ {l : List Char} {c : Char} {cs res : List Char},
    l = c :: cs → trimTrailing l = res → res = [] ∨ ∃ rest, res = c :: rest := by
  intro l c cs res hl ht
  subst hl
  rw [show trimTrailing (c :: cs) = match trimTrailing cs with
      | [] => if c.isWhitespace then [] else [c]
      | res => c :: res from rfl] at ht
  cases h2 : trimTrailing cs with
  | nil =>
    rw [h2] at ht
    by_cases hw : c.isWhitespace
    · rw [if_pos hw] at ht; exact Or.inl ht.symm
    · rw [if_neg hw] at ht; exact Or.inr ⟨[], ht.symm⟩
  | cons r rs =>
    rw [h2] at ht
    exact Or.inr ⟨r :: rs, ht.symm⟩

/-- JavaScript `trim` is idempotent. -/
lemma jsTrim_idem (s : String) : jsTrim (jsTrim s) = jsTrim s := by
  have hdw : (trimTrailing (s.data.dropWhile Char.isWhitespace)).dropWhile Char.isWhitespace
      = trimTrailing (s.data.dropWhile Char.isWhitespace) := by
    cases hl2 : trimTrailing (s.data.dropWhile Char.isWhitespace) with
    | nil => rfl
    | cons c cs =>
      cases hl : s.data.dropWhile Char.isWhitespace with
      | nil => rw [hl] at hl2; simp [trimTrailing] at hl2
      | cons c0 rest =>
        have hc0 : c0.isWhitespace = false := dropWhile_head_false hl
        rw [hl] at hl2
        rcases trimTrailing_head rfl hl2 with hn | ⟨rest2, hr⟩
        · cases hn
        · cases hr
          rw [List.dropWhile_cons, if_neg (by simp [hc0])]
  show (⟨trimTrailing ((jsTrim s).data.dropWhile Char.isWhitespace)⟩ : String) = jsTrim s
  have hdata : (jsTrim s).data = trimTrailing (s.data.dropWhile Char.isWhitespace) := rfl
  rw [hdata, hdw, trimTrailing_idem]
  rfl

/-- A name that `getSheetByName` resolves is one of the sheet names. -/
lemma getSheetByName_mem {ss : SS} {n : String} {sh : Sheet}
    (h : getSheetByName ss n = some sh) : n ∈ sheetNames ss := by
  unfold getSheetByName at h
  rw [Option.map_eq_some'] at h
  obtain ⟨p, hp, _⟩ := h
  have hmem := List.mem_of_find?_eq_some hp
  have hpred := List.find?_some hp
  simp only [decide_eq_true_eq] at hpred
  rw [← hpred]
  exact List.mem_map_of_mem Prod.fst hmem

/-- **C9** (amended).  `getOrCreateSheet_` matches existing sheet names
against the requested destination name tolerantly — equality of the
trimmed, uppercased forms — and returns an existing sheet (store
unchanged) when such a match exists; when none exists it creates a
sheet under the *trimmed* requested name (not the exact requested
name). -/
theorem getOrCreateSheet_spec (name : String) (ss : SS) :
    (((sheetNames ss).any fun nm => decide (jsUpper (jsTrim nm) = jsUpper (jsTrim name))) = false →
      (getOrCreateSheet name ss).1 = insertSheet ss (jsTrim name)
        ∧ (getOrCreateSheet name ss).2 = jsTrim name)
    ∧ (((sheetNames ss).any fun nm => decide (jsUpper (jsTrim nm) = jsUpper (jsTrim name))) = true →
      (getOrCreateSheet name ss).1 = ss
        ∧ (getOrCreateSheet name ss).2 ∈ sheetNames ss
        ∧ jsUpper (jsTrim (getOrCreateSheet name ss).2) = jsUpper (jsTrim name)) := by
  cases hg : getSheetByName ss (jsTrim name) with
  | some sh =>
    have hmem : jsTrim name ∈ sheetNames ss := getSheetByName_mem hg
    have hval : getOrCreateSheet name ss = (ss, jsTrim name) := by
      simp only [getOrCreateSheet, hg]
    have hany : ((sheetNames ss).any fun nm =>
        decide (jsUpper (jsTrim nm) = jsUpper (jsTrim name))) = true := by
      rw [List.any_eq_true]
      exact ⟨jsTrim name, hmem, by simp [jsTrim_idem]⟩
    refine ⟨fun h => absurd hany (by simp [h]),
      fun _ => ⟨by rw [hval], by rw [hval]; exact hmem, by rw [hval]; simp [jsTrim_idem]⟩⟩
  | none =>
    cases hf : (sheetNames ss).find? fun nm => decide (jsUpper (jsTrim nm) = jsUpper (jsTrim name)) with
    | some m =>
      have hmem := List.mem_of_find?_eq_some hf
      have hpred := List.find?_some hf
      simp only [decide_eq_true_eq] at hpred
      have hval : getOrCreateSheet name ss = (ss, m) := by
        simp only [getOrCreateSheet, hg, hf]
      have hany : ((sheetNames ss).any fun nm =>
          decide (jsUpper (jsTrim nm) = jsUpper (jsTrim name))) = true := by
        rw [List.any_eq_true]
        exact ⟨m, hmem, by simp [hpred]⟩
      refine ⟨fun h => absurd hany (by simp [h]),
        fun _ => ⟨by rw [hval], by rw [hval]; exact hmem, by rw [hval]; exact hpred⟩⟩
    | none =>
      have hall := List.find?_eq_none.mp hf
      have hval : getOrCreateSheet name ss = (insertSheet ss (jsTrim name), jsTrim name) := by
        simp only [getOrCreateSheet, hg, hf]
      have hany : ((sheetNames ss).any fun nm =>
          decide (jsUpper (jsTrim nm) = jsUpper (jsTrim name))) = false := by
        rw [Bool.eq_false_iff]
        intro hc
        rw [List.any_eq_true] at hc
        obtain ⟨x, hx, hpx⟩ := hc
        exact hall x hx hpx
      exact ⟨fun _ => ⟨by rw [hval], by rw [hval]⟩, fun h => absurd hany (by simp [h])⟩

/-- Witness for C9: requesting `"ACME"` against a spreadsheet holding
`" acme "` reuses the existing sheet without touching the store. -/
theorem getOrCreateSheet_spec_witness :
    (getOrCreateSheet "ACME" exSSLower).1 = exSSLower
      ∧ (getOrCreateSheet "ACME" exSSLower).2 ∈ sheetNames exSSLower := by
  have h := (getOrCreateSheet_spec "ACME" exSSLower).2 (by decide)
  exact ⟨h.1, h.2.1⟩


/-- Every target stored by the first config pass is truthy (the scan
keeps a target only under `... && target`). -/
lemma scanDefault_truthy : ∀ (rows : List (List Cell)) (c : Cell),
    scanDefault rows = some c → truthy c = true := by
  have haux : ∀ (rows : List (List Cell)) (acc : Option Cell),
      (∀ x, acc = some x → truthy x = true) →
      ∀ c, rows.foldl (fun acc r => if defRule r then some (r.getD 1 emptyCell) else acc) acc
          = some c → truthy c = true := by
    intro rows
    induction rows with
    | nil => intro acc hacc c h; exact hacc c h
    | cons r rs ih =>
      intro acc hacc c h
      rw [List.foldl_cons] at h
      refine ih _ ?_ c h
      intro x hx
      by_cases hd : defRule r = true
      · rw [if_pos hd] at hx
        cases hx
        simp only [defRule, Bool.and_eq_true] at hd
        exact hd.2
      · rw [if_neg hd] at hx; exact hacc x hx
  intro rows c h
  exact haux rows none (by intro x hx; cases hx) c h


/-- The first config pass selects the *last* rule that both carries
the default flag and names a truthy target. -/
lemma scanDefault_eq_filter_last (rows : List (List Cell)) :
    scanDefault rows = ((rows.filter defRule).getLast?).map fun r => r.getD 1 emptyCell := by
  induction rows using List.reverseRecOn with
  | nil => rfl
  | append_singleton l r ih =>
    rw [scanDefault, List.foldl_append, List.foldl_cons, List.foldl_nil, List.filter_append]
    by_cases hd : defRule r = true
    · rw [if_pos hd]
      simp [hd, List.getLast?_concat]
    · rw [if_neg hd]
      have hf : List.filter defRule [r] = [] := by
        simp [List.filter_cons, Bool.eq_false_iff.mpr hd]
      rw [hf, List.append_nil]
      exact ih


/-- **C5** (amended).  When some rule with a *non-blank* (JS-truthy)
classification code matches the key after trimming and upper-casing
both sides, resolution returns that rule (the first such) with
`isDefault = false`, taking precedence over any default: its name is
the rule's own destination when truthy, else the discovered default
target, else the hard-coded `"ORDERS"`. -/
theorem lookupDestination_exact_match (custm : Cell) (ss : SS) (cfg : Sheet) (r : List Cell)
    (hcfg : getSheetByName ss CONFIG_SHEET = some cfg)
    (hlast : 2 ≤ cfg.lastRow)
    (hmatch : exactMatch custm (configRows cfg) = some r) :
    ∃ d : Dest, lookupDestination custm ss = some d ∧ d.isDefault = false ∧
      (truthy (r.getD 1 emptyCell) = true → d.name = jsString (r.getD 1 emptyCell)) ∧
      (truthy (r.getD 1 emptyCell) = false →
        ∀ c, scanDefault (configRows cfg) = some c → d.name = jsString c) ∧
      (truthy (r.getD 1 emptyCell) = false →
        scanDefault (configRows cfg) = none → d.name = "ORDERS") := by
  have hval : lookupDestination custm ss =
      some ⟨pickName (r.getD 1 emptyCell) (scanDefault (configRows cfg)), false⟩ := by
    simp only [lookupDestination, hcfg]
    rw [if_neg (by omega)]
    simp only [hmatch]
  refine ⟨_, hval, rfl, ?_, ?_, ?_⟩
  · intro ht
    show pickName (r.getD 1 emptyCell) (scanDefault (configRows cfg)) = _
    unfold pickName
    rw [if_pos ht]
  · intro ht c hc
    have htc := scanDefault_truthy _ c hc
    have ho : orOrders (some c) = c := by
      show (if truthy c = true then c else Cell.s "ORDERS") = c
      rw [if_pos htc]
    show pickName (r.getD 1 emptyCell) (scanDefault (configRows cfg)) = _
    unfold pickName
    rw [if_neg (by rw [ht]; decide), hc, ho]
  · intro ht hc
    show pickName (r.getD 1 emptyCell) (scanDefault (configRows cfg)) = _
    unfold pickName
    rw [if_neg (by rw [ht]; decide), hc]
    rfl


/-- Witness for C5: the spec's exact-match-precedence scenario — a
default rule targeting `ORDERS` plus an exact rule `ACME → ACME_TAB`
resolves `"ACME"` to `(ACME_TAB, isDefault = false)`. -/
theorem lookupDestination_exact_match_witness :
    lookupDestination (Cell.s "ACME") exSSPrecedence = some ⟨"ACME_TAB", false⟩ := by
  obtain ⟨d, h1, h2, h3, -, -⟩ := lookupDestination_exact_match (Cell.s "ACME") exSSPrecedence
    exCfgPrecedence [Cell.s "ACME", Cell.s "ACME_TAB", Cell.s ""]
    (by decide) (by decide) (by decide)
  have hname : d.name = "ACME_TAB" := by rw [h3 (by decide)]; rfl
  have hd : d = ⟨"ACME_TAB", false⟩ := by
    cases d
    simp_all
  rw [← hd]
  exact h1


/-- **C6** (amended).  With no exact match, resolution returns the
active default flagged `isDefault = true`, where the active default is
the destination of the *last* rule in scan order that carries the
default flag (compared case-insensitively against `"TRUE"`) *and* has
a non-blank (truthy) destination; `"ORDERS"` when no such rule
exists. -/
theorem lookupDestination_default_fallback (custm : Cell) (ss : SS) (cfg : Sheet)
    (hcfg : getSheetByName ss CONFIG_SHEET = some cfg)
    (hlast : 2 ≤ cfg.lastRow)
    (hnone : exactMatch custm (configRows cfg) = none) :
    lookupDestination custm ss =
      some ⟨(match ((configRows cfg).filter defRule).getLast? with
             | some r => jsString (r.getD 1 emptyCell)
             | none => "ORDERS"), true⟩ := by
  have hval : lookupDestination custm ss =
      some ⟨jsString (orOrders (scanDefault (configRows cfg))), true⟩ := by
    simp only [lookupDestination, hcfg]
    rw [if_neg (by omega)]
    simp only [hnone]
  rw [hval]
  cases hl : ((configRows cfg).filter defRule).getLast? with
  | none =>
    have hs : scanDefault (configRows cfg) = none := by
      rw [scanDefault_eq_filter_last, hl]; rfl
    rw [hs]
    rfl
  | some r =>
    have hs : scanDefault (configRows cfg) = some (r.getD 1 emptyCell) := by
      rw [scanDefault_eq_filter_last, hl]; rfl
    have ht := scanDefault_truthy _ _ hs
    have ho : orOrders (some (r.getD 1 emptyCell)) = r.getD 1 emptyCell := by
      show (if truthy (r.getD 1 emptyCell) = true then r.getD 1 emptyCell else Cell.s "ORDERS")
        = r.getD 1 emptyCell
      rw [if_pos ht]
    rw [hs, ho]


/-- Witness for C6: the spec's default-fallback scenario — no rule
matches `"NOPE"`, one rule is flagged default targeting `ORDERS`. -/
theorem lookupDestination_default_fallback_witness :
    lookupDestination (Cell.s "NOPE") exSSPrecedence = some ⟨"ORDERS", true⟩ := by
  have h := lookupDestination_default_fallback (Cell.s "NOPE") exSSPrecedence exCfgPrecedence
    (by decide) (by decide) (by decide)
  rw [h]
  decide


/-- Counterexample for C5 as stated: the rule `["", "ZTAB", ""]`
matches the key `" "` exactly after trimming and upper-casing both
sides (both normalize to `""`), yet resolution skips it
(`if (!code) continue`) and returns the default `(ORDERS, true)`, not
`(ZTAB, false)`. -/
theorem lookupDestination_blank_code_counterexample :
    jsUpper (jsTrim (jsString (Cell.s ""))) = jsUpper (jsTrim (jsString (Cell.s " ")))
      ∧ (configRows exCfgBlankCode).getD 0 [] = [Cell.s "", Cell.s "ZTAB", Cell.s ""]
      ∧ lookupDestination (Cell.s " ") exSSBlankCode = some ⟨"ORDERS", true⟩
      ∧ lookupDestination (Cell.s " ") exSSBlankCode ≠ some ⟨"ZTAB", false⟩ := by
  refine ⟨by decide, by decide, by decide, by decide⟩


/-- Counterexample for C6 as stated: with rules
`[X, "A", TRUE]` then `[Y, "", TRUE]`, the last rule carrying the
default flag has destination `""`, yet resolving an unmatched code
yields `("A", true)` — neither that last-flagged rule's (blank)
destination nor the `"ORDERS"` fallback the claim reserves for
flagless configurations. -/
theorem lookupDestination_last_default_counterexample :
    (((configRows exCfgTwoDefaults).filter fun r =>
        decide (jsUpper (jsString (r.getD 2 emptyCell)) = "TRUE")).getLast?).map
        (fun r => r.getD 1 emptyCell) = some (Cell.s "")
      ∧ lookupDestination (Cell.s "Z") exSSTwoDefaults = some ⟨"A", true⟩
      ∧ lookupDestination (Cell.s "Z") exSSTwoDefaults ≠ some ⟨"", true⟩
      ∧ lookupDestination (Cell.s "Z") exSSTwoDefaults ≠ some ⟨"ORDERS", true⟩ := by
  refine ⟨by decide, by decide, by decide, by decide⟩


/-- When the backward scan finds nothing, every position is `false`. -/
lemma lastTrueIdx_none : ∀ {l : List Bool}, lastTrueIdx l = none →
    ∀ j, l.getD j false = false := by
  intro l
  induction l with
  | nil => intro _ j; cases j <;> rfl
  | cons b bs ih =>
    intro h j
    rw [show lastTrueIdx (b :: bs) = match lastTrueIdx bs with
        | some k => some (k + 1)
        | none => if b then some 0 else none from rfl] at h
    cases hk : lastTrueIdx bs with
    | some k => rw [hk] at h; cases h
    | none =>
      rw [hk] at h
      by_cases hb : b = true
      · rw [if_pos hb] at h; cases h
      · cases j with
        | zero => simpa using Bool.eq_false_iff.mpr hb
        | succ j2 => rw [List.getD_cons_succ]; exact ih hk j2


/-- The backward scan returns the greatest index holding `true`. -/
lemma lastTrueIdx_some : ∀ {l : List Bool} {i : Nat}, lastTrueIdx l = some i →
    i < l.length ∧ l.getD i false = true ∧ ∀ j, i < j → l.getD j false = false := by
  intro l
  induction l with
  | nil => intro i h; simp [lastTrueIdx] at h
  | cons b bs ih =>
    intro i h
    rw [show lastTrueIdx (b :: bs) = match lastTrueIdx bs with
        | some k => some (k + 1)
        | none => if b then some 0 else none from rfl] at h
    cases hk : lastTrueIdx bs with
    | some k =>
      rw [hk] at h
      cases h
      obtain ⟨h1, h2, h3⟩ := ih hk
      refine ⟨by simpa using Nat.succ_lt_succ h1, by simpa using h2, ?_⟩
      intro j hj
      cases j with
      | zero => exact absurd hj (by omega)
      | succ j2 =>
        rw [List.getD_cons_succ]
        exact h3 j2 (by omega)
    | none =>
      rw [hk] at h
      by_cases hb : b = true
      · rw [if_pos hb] at h
        cases h
        refine ⟨by simp, by simpa using hb, ?_⟩
        intro j hj
        cases j with
        | zero => exact absurd hj (by omega)
        | succ j2 =>
          rw [List.getD_cons_succ]
          exact lastTrueIdx_none hk j2
      · rw [if_neg hb] at h
        cases h


/-- Every row at or beyond `getLastRow` (0-based index at or beyond
the 1-based last row) has no content. -/
lemma lastRowList_lt : ∀ (rows : List (List Cell)) (i : Nat),
    lastRowList rows ≤ i → rowHasContent (rows.getD i []) = false := by
  intro rows
  induction rows with
  | nil => intro i _; cases i <;> rfl
  | cons r rs ih =>
    intro i hi
    cases hk : lastRowList rs with
    | zero =>
      have hmain : lastRowList (r :: rs) = if rowHasContent r then 1 else 0 := by
        rw [show lastRowList (r :: rs) = match lastRowList rs with
            | 0 => if rowHasContent r then 1 else 0
            | n + 1 => n + 2 from rfl, hk]
      rw [hmain] at hi
      by_cases hr : rowHasContent r = true
      · rw [if_pos hr] at hi
        cases i with
        | zero => exact absurd hi (by omega)
        | succ i2 => rw [List.getD_cons_succ]; exact ih i2 (by omega)
      · rw [if_neg hr] at hi
        cases i with
        | zero => simpa using Bool.eq_false_iff.mpr hr
        | succ i2 => rw [List.getD_cons_succ]; exact ih i2 (by omega)
    | succ n =>
      have hmain : lastRowList (r :: rs) = n + 2 := by
        rw [show lastRowList (r :: rs) = match lastRowList rs with
            | 0 => if rowHasContent r then 1 else 0
            | n + 1 => n + 2 from rfl, hk]
      rw [hmain] at hi
      cases i with
      | zero => exact absurd hi (by omega)
      | succ i2 => rw [List.getD_cons_succ]; exact ih i2 (by omega)


/-- A row with data in its first `N` columns has content. -/
lemma rowDataFirstN_content {sh : Sheet} {N r : Nat} (h : rowDataFirstN sh N r = true) :
    rowHasContent (sh.rows.getD (r - 1) []) = true := by
  unfold rowDataFirstN readRowCells at h
  rw [List.any_eq_true] at h
  obtain ⟨c, hc, hp⟩ := h
  rw [List.mem_map] at hc
  obtain ⟨j, _, hj⟩ := hc
  unfold Sheet.cell at hj
  cases hg : (sh.rows.getD (r - 1) [])[j + 1 - 1]? with
  | none =>
    rw [List.getD_eq_getElem?_getD, hg] at hj
    rw [← hj] at hp
    simp [isPresent] at hp
  | some x =>
    rw [List.getD_eq_getElem?_getD, hg] at hj
    simp only [Option.getD_some] at hj
    rw [rowHasContent, List.any_eq_true]
    exact ⟨x, List.getElem?_mem hg, by rw [hj]; exact hp⟩


/-- A contentless row has no data in its first `N` columns. -/
lemma rowDataFirstN_false {sh : Sheet} {N r : Nat}
    (h : rowHasContent (sh.rows.getD (r - 1) []) = false) : rowDataFirstN sh N r = false := by
  cases hP : rowDataFirstN sh N r
  · rfl
  · exact absurd (rowDataFirstN_content hP) (by rw [h]; decide)


/-- Rows strictly beyond `getLastRow` hold no data in any columns. -/
lemma rowDataFirstN_beyond {sh : Sheet} {N r : Nat} (h : sh.lastRow ≤ r - 1) :
    rowDataFirstN sh N r = false :=
  rowDataFirstN_false (lastRowList_lt sh.rows (r - 1) h)


/-- Indexing a table built over `List.range`. -/
lemma getD_map_range {α : Type} (f : Nat → α) (h i : Nat) (d : α) (hi : i < h) :
    ((List.range h).map f).getD i d = f i := by
  rw [List.getD_eq_getElem?_getD, List.getElem?_map, List.getElem?_range hi]
  rfl


/-- The behavior of `nextRowByFirstNCols_`: the returned row is `≥ 2`,
lies strictly after every row with data in the first `N` columns,
immediately follows such a row unless it is `2`, is itself empty in
those columns, and is `2` when no row has data there. -/
lemma nextRow_basic (sh : Sheet) (N : Nat) :
    2 ≤ nextRowByFirstNCols sh N
    ∧ (∀ r, 2 ≤ r → rowDataFirstN sh N r = true → r < nextRowByFirstNCols sh N)
    ∧ (nextRowByFirstNCols sh N = 2 ∨
        rowDataFirstN sh N (nextRowByFirstNCols sh N - 1) = true)
    ∧ rowDataFirstN sh N (nextRowByFirstNCols sh N) = false
    ∧ ((∀ r, 2 ≤ r → rowDataFirstN sh N r = false) → nextRowByFirstNCols sh N = 2) := by
  have hshow : nextRowByFirstNCols sh N =
      (if sh.lastRow < 2 then 2
       else
         match lastTrueIdx (((List.range (sh.lastRow - 1)).map
             fun i => readRowCells sh (2 + i) N).map fun row => row.any isPresent) with
         | some i => 2 + i + 1
         | none => 2) := rfl
  by_cases hlast : sh.lastRow < 2
  · have hres : nextRowByFirstNCols sh N = 2 := by
      rw [hshow, if_pos hlast]
    have hnodata : ∀ r, 2 ≤ r → rowDataFirstN sh N r = false := by
      intro r hr
      exact rowDataFirstN_beyond (by omega)
    rw [hres]
    refine ⟨by omega, fun r hr hd => absurd hd (by rw [hnodata r hr]; decide), Or.inl rfl,
      hnodata 2 (by omega), fun _ => rfl⟩
  · have hunf : nextRowByFirstNCols sh N =
        match lastTrueIdx ((List.range (sh.lastRow - 1)).map
            fun i => rowDataFirstN sh N (2 + i)) with
        | some i => 2 + i + 1
        | none => 2 := by
      rw [hshow, if_neg hlast, List.map_map]
      rfl
    cases hli : lastTrueIdx ((List.range (sh.lastRow - 1)).map
        fun i => rowDataFirstN sh N (2 + i)) with
    | some i =>
      rw [hli] at hunf
      have hunf2 : nextRowByFirstNCols sh N = 2 + i + 1 := by rw [hunf]
      obtain ⟨h1, h2, h3⟩ := lastTrueIdx_some hli
      rw [List.length_map, List.length_range] at h1
      have h2x : rowDataFirstN sh N (2 + i) = true := by
        rw [getD_map_range _ _ _ _ h1] at h2
        exact h2
      have hafter : ∀ r, 2 ≤ r → 2 + i < r → rowDataFirstN sh N r = false := by
        intro r hr2 hri
        by_cases hrange : r - 2 < sh.lastRow - 1
        · have hz := h3 (r - 2) (by omega)
          rw [getD_map_range _ _ _ _ hrange] at hz
          have hz2 : rowDataFirstN sh N (2 + (r - 2)) = false := hz
          rw [show 2 + (r - 2) = r by omega] at hz2
          exact hz2
        · exact rowDataFirstN_beyond (by omega)
      rw [hunf2]
      refine ⟨by omega, ?_, Or.inr ?_, ?_, ?_⟩
      · intro r hr hd
        by_contra hc
        have hf : rowDataFirstN sh N r = false := hafter r hr (by omega)
        rw [hd] at hf
        cases hf
      · rw [show 2 + i + 1 - 1 = 2 + i by omega]
        exact h2x
      · exact hafter (2 + i + 1) (by omega) (by omega)
      · intro hall
        have hba := hall (2 + i) (by omega)
        rw [h2x] at hba
        cases hba
    | none =>
      rw [hli] at hunf
      have hunf2 : nextRowByFirstNCols sh N = 2 := by rw [hunf]
      have hnone := lastTrueIdx_none hli
      have hnodata : ∀ r, 2 ≤ r → rowDataFirstN sh N r = false := by
        intro r hr
        by_cases hrange : r - 2 < sh.lastRow - 1
        · have hz := hnone (r - 2)
          rw [getD_map_range _ _ _ _ hrange] at hz
          have hz2 : rowDataFirstN sh N (2 + (r - 2)) = false := hz
          rw [show 2 + (r - 2) = r by omega] at hz2
          exact hz2
        · exact rowDataFirstN_beyond (by omega)
      rw [hunf2]
      refine ⟨by omega, fun r hr hd => absurd hd (by rw [hnodata r hr]; decide), Or.inl rfl,
        hnodata 2 (by omega), fun _ => rfl⟩


/-- **C7**.  `nextRowByFirstNCols_(sheet, N)` returns a row `res ≥ 2`
such that: every row with data in its first `N` columns lies strictly
above `res` (values beyond column `N` never make a row count as
occupied); `res` immediately follows a row with data in those columns
unless it is `2`; `res` itself is fully empty in those columns; and a
table that is header-only or has no data at all in columns `1..N`
yields the first data row, `2`. -/
theorem nextRow_spec (sh : Sheet) (N : Nat) :
    2 ≤ nextRowByFirstNCols sh N
    ∧ (∀ r, 2 ≤ r → rowDataFirstN sh N r = true → r < nextRowByFirstNCols sh N)
    ∧ (nextRowByFirstNCols sh N = 2 ∨
        rowDataFirstN sh N (nextRowByFirstNCols sh N - 1) = true)
    ∧ rowDataFirstN sh N (nextRowByFirstNCols sh N) = false
    ∧ ((∀ r, 2 ≤ r → rowDataFirstN sh N r = false) → nextRowByFirstNCols sh N = 2) :=
  nextRow_basic sh N

/-- Witness for C7: the spec's scenario — data in rows 2-5 of columns
A-F and a stray value in column G of row 6 yields `nextRow = 6`. -/
theorem nextRow_spec_witness :
    nextRowByFirstNCols exDest 6 = 6 ∧ 5 < nextRowByFirstNCols exDest 6 :=
  ⟨by decide, (nextRow_spec exDest 6).2.1 5 (by decide) (by decide)⟩


/-- Padding with blank rows does not change any row read. -/
lemma getD_padRows (rows : List (List Cell)) (n i : Nat) :
    (padRows rows n).getD i [] = rows.getD i [] := by
  unfold padRows
  by_cases h : i < rows.length
  · rw [List.getD_append _ _ _ _ h]
  · rw [List.getD_append_right _ _ _ _ (by omega)]
    rw [List.getD_eq_getElem?_getD, List.getD_eq_getElem?_getD]
    rw [List.getElem?_replicate, List.getElem?_eq_none (by omega)]
    by_cases h2 : i - rows.length < n - rows.length <;> simp [h2]


/-- The length of a padded row list. -/
lemma length_padRows (rows : List (List Cell)) (n : Nat) :
    (padRows rows n).length = max rows.length n := by
  unfold padRows
  rw [List.length_append, List.length_replicate]
  omega


/-- The row list produced by a row write. -/
lemma writeRowAt_rows (sh : Sheet) (r : Nat) (vals : List Cell) :
    (sh.writeRowAt r vals).rows = (padRows sh.rows r).set (r - 1)
      (vals ++ ((padRows sh.rows r).getD (r - 1) []).drop vals.length) := rfl


/-- A row write leaves every other row's cells untouched. -/
lemma writeRowAt_cell_ne (sh : Sheet) (r : Nat) (vals : List Cell) (r2 c : Nat)
    (hr : 1 ≤ r) (hr2 : 1 ≤ r2) (h : r2 ≠ r) :
    (sh.writeRowAt r vals).cell r2 c = sh.cell r2 c := by
  unfold Sheet.cell
  rw [writeRowAt_rows]
  have hrow : ((padRows sh.rows r).set (r - 1)
      (vals ++ ((padRows sh.rows r).getD (r - 1) []).drop vals.length)).getD (r2 - 1) []
      = sh.rows.getD (r2 - 1) [] := by
    rw [List.getD_eq_getElem?_getD, List.getElem?_set_ne (by omega : r - 1 ≠ r2 - 1),
      ← List.getD_eq_getElem?_getD, getD_padRows]
  rw [hrow]


/-- The written row: the new values followed by the old surplus. -/
lemma writeRowAt_row_at (sh : Sheet) (r : Nat) (vals : List Cell) (hr : 1 ≤ r) :
    (sh.writeRowAt r vals).rows.getD (r - 1) []
      = vals ++ (sh.rows.getD (r - 1) []).drop vals.length := by
  have hidx : r - 1 < (padRows sh.rows r).length := by
    rw [length_padRows]
    omega
  rw [writeRowAt_rows, List.getD_eq_getElem?_getD, List.getElem?_set_self hidx,
    Option.getD_some, getD_padRows]


/-- A row write leaves the written row's cells beyond the written
width untouched. -/
lemma writeRowAt_cell_beyond (sh : Sheet) (r : Nat) (vals : List Cell) (c : Nat)
    (hr : 1 ≤ r) (hc : vals.length < c) :
    (sh.writeRowAt r vals).cell r c = sh.cell r c := by
  unfold Sheet.cell
  rw [writeRowAt_row_at sh r vals hr]
  rw [List.getD_append_right vals ((sh.rows.getD (r - 1) []).drop vals.length) emptyCell
    (c - 1) (by omega)]
  rw [List.getD_eq_getElem?_getD, List.getElem?_drop, List.getD_eq_getElem?_getD]
  have hidx : vals.length + (c - 1 - vals.length) = c - 1 := by omega
  rw [hidx, List.getD_eq_getElem?_getD]


/-- Cells within the written width hold the written values. -/
lemma writeRowAt_cell_at (sh : Sheet) (r : Nat) (vals : List Cell) (c : Nat)
    (hr : 1 ≤ r) (hc1 : 1 ≤ c) (hc : c ≤ vals.length) :
    (sh.writeRowAt r vals).cell r c = vals.getD (c - 1) emptyCell := by
  unfold Sheet.cell
  rw [writeRowAt_row_at sh r vals hr]
  rw [List.getD_append vals ((sh.rows.getD (r - 1) []).drop vals.length) emptyCell
    (c - 1) (by omega)]


/-- Pipe count of a `join('|')`: one per separator plus the
elements' own pipes. -/
lemma joinStr_pipe_count : ∀ (l : List String), l ≠ [] →
    (joinStr "|" l).data.count '|' = l.length - 1 + (l.map fun s => s.data.count '|').sum := by
  intro l
  induction l with
  | nil => intro h; cases h rfl
  | cons a rest ih =>
    intro _
    cases rest with
    | nil => simp [joinStr]
    | cons b l2 =>
      have heq : joinStr "|" (a :: b :: l2) = a ++ "|" ++ joinStr "|" (b :: l2) := rfl
      rw [heq, String.data_append, String.data_append, List.count_append, List.count_append]
      rw [ih (by simp)]
      have hpipe : ("|" : String).data.count '|' = 1 := by decide
      rw [hpipe]
      simp only [List.map_cons, List.sum_cons, List.length_cons]
      omega


/-- Splitting at the first pipe is unambiguous when both prefixes are
pipe-free. -/
lemma append_pipe_cancel : ∀ {l1 l2 r1 r2 : List Char}, '|' ∉ l1 → '|' ∉ l2 →
    l1 ++ '|' :: r1 = l2 ++ '|' :: r2 → l1 = l2 ∧ r1 = r2 := by
  intro l1
  induction l1 with
  | nil =>
    intro l2 r1 r2 _ h2 h
    cases l2 with
    | nil => simpa using h
    | cons c cs =>
      simp only [List.nil_append, List.cons_append, List.cons.injEq] at h
      exact absurd (show ('|' : Char) ∈ c :: cs by rw [h.1]; exact List.mem_cons_self _ _) h2
  | cons a as ih =>
    intro l2 r1 r2 h1 h2 h
    cases l2 with
    | nil =>
      simp only [List.nil_append, List.cons_append, List.cons.injEq] at h
      exact absurd (show ('|' : Char) ∈ a :: as by rw [h.1]; exact List.mem_cons_self _ _) h1
    | cons c cs =>
      simp only [List.cons_append, List.cons.injEq] at h
      obtain ⟨hac, hrest⟩ := h
      obtain ⟨hl, hr⟩ := ih (fun hm => h1 (List.mem_cons_of_mem a hm))
        (fun hm => h2 (List.mem_cons_of_mem c hm)) hrest
      exact ⟨by rw [hac, hl], hr⟩


/-- `join('|')` is injective on equal-length lists of pipe-free
strings. -/
lemma joinStr_pipe_inj_aux : ∀ (as bs : List String), as.length = bs.length →
    (∀ a ∈ as, '|' ∉ a.data) → (∀ b ∈ bs, '|' ∉ b.data) →
    joinStr "|" as = joinStr "|" bs → as = bs := by
  intro as
  induction as with
  | nil =>
    intro bs hlen _ _ _
    cases bs with
    | nil => rfl
    | cons b bs2 => simp at hlen
  | cons a as2 ih =>
    intro bs hlen hpa hpb hj
    cases bs with
    | nil => simp at hlen
    | cons b bs2 =>
      cases as2 with
      | nil =>
        cases bs2 with
        | nil =>
          have : a = b := hj
          rw [this]
        | cons b2 bs3 => simp at hlen
      | cons a2 as3 =>
        cases bs2 with
        | nil => simp at hlen
        | cons b2 bs3 =>
          have hd : a.data ++ '|' :: (joinStr "|" (a2 :: as3)).data
              = b.data ++ '|' :: (joinStr "|" (b2 :: bs3)).data := by
            have hc := congrArg String.data hj
            rw [show joinStr "|" (a :: a2 :: as3) = a ++ "|" ++ joinStr "|" (a2 :: as3) from rfl,
              show joinStr "|" (b :: b2 :: bs3) = b ++ "|" ++ joinStr "|" (b2 :: bs3) from rfl,
              String.data_append, String.data_append, String.data_append, String.data_append] at hc
            simpa using hc
          obtain ⟨hab, hrest⟩ := append_pipe_cancel (hpa a (by simp)) (hpb b (by simp)) hd
          have ha : a = b := String.ext hab
          have hj2 : joinStr "|" (a2 :: as3) = joinStr "|" (b2 :: bs3) := String.ext hrest
          have htail := ih (b2 :: bs3) (by simpa using hlen)
            (fun x hx => hpa x (List.mem_cons_of_mem a hx))
            (fun x hx => hpb x (List.mem_cons_of_mem b hx)) hj2
          rw [ha, htail]


/-- `join('|')` equality against a pipe-free list forces elementwise
equality: the comparison `ensureHeaders_` makes on joined strings is
exactly a cellwise comparison. -/
lemma joinStr_pipe_inj (as bs : List String) (hlen : as.length = bs.length)
    (hpb : ∀ b ∈ bs, '|' ∉ b.data) (hj : joinStr "|" as = joinStr "|" bs) : as = bs := by
  cases as with
  | nil =>
    cases bs with
    | nil => rfl
    | cons b bs2 => simp at hlen
  | cons a as2 =>
    cases bs with
    | nil => simp at hlen
    | cons b bs2 =>
      have hc := congrArg (fun s => s.data.count '|') hj
      simp only at hc
      rw [joinStr_pipe_count _ (by simp), joinStr_pipe_count _ (by simp)] at hc
      have hsumb : ((b :: bs2).map fun s => s.data.count '|').sum = 0 := by
        rw [List.sum_eq_zero_iff]
        intro x hx
        rw [List.mem_map] at hx
        obtain ⟨s, hs, hxs⟩ := hx
        rw [← hxs, List.count_eq_zero]
        exact hpb s hs
      have hsuma : ((a :: as2).map fun s => s.data.count '|').sum = 0 := by
        rw [hsumb] at hc
        simp only [List.length_cons] at hc hlen
        omega
      have hpa : ∀ x ∈ (a :: as2), '|' ∉ x.data := by
        intro x hx
        rw [← List.count_eq_zero]
        exact List.sum_eq_zero_iff.mp hsuma _ (List.mem_map_of_mem _ hx)
      exact joinStr_pipe_inj_aux _ _ hlen hpa hpb hj


/-- **C8**.  For a header layout whose cells are pipe-free (true of
both fixed layouts), when the existing header row already matches the
expected layout case-insensitively, `ensureHeaders_` returns the sheet
byte-for-byte unchanged; when it does not match, exactly row 1's first
`width` cells are overwritten with the expected layout, and rows `2..`
are untouched in either case. -/
theorem ensureHeaders_spec (sh : Sheet) (header : List String)
    (hp : ∀ s ∈ header, '|' ∉ (jsUpper s).data) :
    ((readRowCells sh 1 header.length).map (fun v => jsUpper (jsString v)) = header.map jsUpper →
      ensureHeaders sh header = sh)
    ∧ ((readRowCells sh 1 header.length).map (fun v => jsUpper (jsString v)) ≠ header.map jsUpper →
      ensureHeaders sh header = sh.writeRowAt 1 (header.map Cell.s))
    ∧ (∀ r c, 2 ≤ r → (ensureHeaders sh header).cell r c = sh.cell r c) := by
  have hunf : ensureHeaders sh header =
      if joinStr "|" ((readRowCells sh 1 header.length).map fun v => jsUpper (jsString v))
          ≠ joinStr "|" (header.map jsUpper) then sh.writeRowAt 1 (header.map Cell.s) else sh := rfl
  have hlen : ((readRowCells sh 1 header.length).map fun v => jsUpper (jsString v)).length
      = (header.map jsUpper).length := by
    rw [List.length_map, List.length_map]
    unfold readRowCells
    rw [List.length_map, List.length_range]
  have hpb : ∀ b ∈ header.map jsUpper, '|' ∉ b.data := by
    intro b hb
    rw [List.mem_map] at hb
    obtain ⟨s, hs, hbs⟩ := hb
    rw [← hbs]
    exact hp s hs
  refine ⟨?_, ?_, ?_⟩
  · intro heq
    rw [hunf, heq, if_neg (by simp)]
  · intro hne
    rw [hunf, if_pos ?_]
    intro hjoin
    exact hne (joinStr_pipe_inj _ _ hlen hpb hjoin)
  · intro r c hr
    rw [hunf]
    by_cases hj : joinStr "|" ((readRowCells sh 1 header.length).map fun v => jsUpper (jsString v))
        ≠ joinStr "|" (header.map jsUpper)
    · rw [if_pos hj]
      exact writeRowAt_cell_ne sh 1 (header.map Cell.s) r c (by omega) (by omega) (by omega)
    · rw [if_neg hj]


/-- Witness for C8: a destination whose header already matches
`ORDERS_HEADER` is left entirely unmodified. -/
theorem ensureHeaders_spec_witness :
    ensureHeaders exDest ORDERS_HEADER = exDest :=
  (ensureHeaders_spec exDest ORDERS_HEADER (by decide)).1 (by decide)


/-- Updating one sheet leaves lookups of other names unchanged. -/
lemma getSheetByName_update_ne (ss : SS) (n : String) (f : Sheet → Sheet) (m : String)
    (h : m ≠ n) : getSheetByName (updateSheet ss n f) m = getSheetByName ss m := by
  unfold getSheetByName updateSheet
  induction ss.sheets with
  | nil => rfl
  | cons p rest ih =>
    show ((updateFirst (p :: rest) n f).find? fun q => decide (q.1 = m)).map (fun q => q.2)
      = ((p :: rest).find? fun q => decide (q.1 = m)).map fun q => q.2
    rw [show updateFirst (p :: rest) n f
        = if p.1 = n then (p.1, f p.2) :: rest else p :: updateFirst rest n f from rfl]
    by_cases hp : p.1 = n
    · rw [if_pos hp]
      rw [List.find?_cons, List.find?_cons]
      have hpm : decide (p.1 = m) = false := by
        simp only [decide_eq_false_iff_not]
        rw [hp]
        exact fun hc => h hc.symm
      rw [hpm]
    · rw [if_neg hp]
      rw [List.find?_cons, List.find?_cons]
      cases hpm : decide (p.1 = m) with
      | true => rfl
      | false => exact ih


/-- Looking up the updated name sees the update. -/
lemma getSheetByName_update_eq (ss : SS) (n : String) (f : Sheet → Sheet) :
    getSheetByName (updateSheet ss n f) n = (getSheetByName ss n).map f := by
  unfold getSheetByName updateSheet
  induction ss.sheets with
  | nil => rfl
  | cons p rest ih =>
    show ((updateFirst (p :: rest) n f).find? fun q => decide (q.1 = n)).map (fun q => q.2)
      = (((p :: rest).find? fun q => decide (q.1 = n)).map fun q => q.2).map f
    rw [show updateFirst (p :: rest) n f
        = if p.1 = n then (p.1, f p.2) :: rest else p :: updateFirst rest n f from rfl]
    by_cases hp : p.1 = n
    · rw [if_pos hp]
      rw [List.find?_cons, List.find?_cons]
      rw [show decide (p.1 = n) = true from by simp [hp]]
      rfl
    · rw [if_neg hp]
      rw [List.find?_cons, List.find?_cons]
      rw [show decide (p.1 = n) = false from by simp [hp]]
      exact ih


/-- `find?` over a list extended by one element. -/
lemma find?_append_single (l : List (String × Sheet)) (x : String × Sheet)
    (p : String × Sheet → Bool) :
    (l ++ [x]).find? p = match l.find? p with
      | some q => some q
      | none => if p x then some x else none := by
  induction l with
  | nil =>
    show ([x] : List (String × Sheet)).find? p = if p x then some x else none
    rw [List.find?_cons]
    cases hx : p x <;> rfl
  | cons a as ih =>
    rw [List.cons_append, List.find?_cons, List.find?_cons]
    cases hpa : p a with
    | true => rfl
    | false => exact ih


/-- Lookup after inserting a sheet at the end of the tab order. -/
lemma getSheetByName_insert (ss : SS) (n m : String) :
    getSheetByName (insertSheet ss n) m
      = match getSheetByName ss m with
        | some sh => some sh
        | none => if n = m then some emptySheet else none := by
  unfold getSheetByName insertSheet
  show ((ss.sheets ++ [(n, emptySheet)]).find? fun q => decide (q.1 = m)).map (fun q => q.2) = _
  rw [find?_append_single]
  cases hf : ss.sheets.find? fun q => decide (q.1 = m) with
  | some q => rfl
  | none =>
    by_cases hnm : n = m
    · simp [hnm]
    · simp [hnm]


/-- Inserting a sheet leaves lookups of other names unchanged. -/
lemma getSheetByName_insert_ne (ss : SS) (n m : String) (h : m ≠ n) :
    getSheetByName (insertSheet ss n) m = getSheetByName ss m := by
  rw [getSheetByName_insert]
  cases hg : getSheetByName ss m with
  | some sh => rfl
  | none =>
    show (if n = m then some emptySheet else none) = none
    rw [if_neg fun hc => h hc.symm]


/-- Looking up a freshly inserted name finds the new blank sheet. -/
lemma getSheetByName_insert_none (ss : SS) (n : String)
    (h : getSheetByName ss n = none) :
    getSheetByName (insertSheet ss n) n = some emptySheet := by
  rw [getSheetByName_insert, h]
  show (if n = n then some emptySheet else none) = some emptySheet
  rw [if_pos rfl]


/-- Every listed sheet name resolves. -/
lemma getSheetByName_isSome_of_mem {ss : SS} {m : String} (h : m ∈ sheetNames ss) :
    (getSheetByName ss m).isSome = true := by
  unfold getSheetByName
  rw [Option.isSome_map']
  rw [List.find?_isSome]
  unfold sheetNames at h
  rw [List.mem_map] at h
  obtain ⟨p, hp, hpm⟩ := h
  exact ⟨p, hp, by simp [hpm]⟩


/-- A row with content bounds `getLastRow` from below. -/
lemma lastRowList_ge {rows : List (List Cell)} {i : Nat}
    (h : rowHasContent (rows.getD i []) = true) : i + 1 ≤ lastRowList rows := by
  by_contra hc
  rw [lastRowList_lt rows i (by omega)] at h
  cases h


/-- A non-zero `getLastRow` points at a row with content. -/
lemma lastRowList_content : ∀ (rows : List (List Cell)) (n : Nat), lastRowList rows = n + 1 →
    rowHasContent (rows.getD n []) = true := by
  intro rows
  induction rows with
  | nil => intro n h; simp [lastRowList] at h
  | cons r rs ih =>
    intro n h
    cases hk : lastRowList rs with
    | zero =>
      have hmain : lastRowList (r :: rs) = if rowHasContent r then 1 else 0 := by
        rw [show lastRowList (r :: rs) = match lastRowList rs with
            | 0 => if rowHasContent r then 1 else 0
            | n + 1 => n + 2 from rfl, hk]
      rw [hmain] at h
      by_cases hr : rowHasContent r = true
      · rw [if_pos hr] at h
        have hn : n = 0 := by omega
        rw [hn]
        exact hr
      · rw [if_neg hr] at h
        cases h
    | succ m =>
      have hmain : lastRowList (r :: rs) = m + 2 := by
        rw [show lastRowList (r :: rs) = match lastRowList rs with
            | 0 => if rowHasContent r then 1 else 0
            | n + 1 => n + 2 from rfl, hk]
      rw [hmain] at h
      have hn : n = m + 1 := by omega
      rw [hn, List.getD_cons_succ]
      exact ih m hk


/-- If every row from position `k` on is contentless, `getLastRow`
is at most `k`. -/
lemma lastRowList_le {rows : List (List Cell)} {k : Nat}
    (h : ∀ i, k ≤ i → rowHasContent (rows.getD i []) = false) : lastRowList rows ≤ k := by
  by_contra hc
  have hL : lastRowList rows = (lastRowList rows - 1) + 1 := by omega
  have hcontent := lastRowList_content rows (lastRowList rows - 1) hL
  rw [h (lastRowList rows - 1) (by omega)] at hcontent
  cases hcontent


/-- Appending a row with content advances `getLastRow` by one. -/
lemma appendRowSheet_lastRow (sh : Sheet) (vals : List Cell)
    (hv : rowHasContent vals = true) :
    (appendRowSheet sh vals).lastRow = sh.lastRow + 1 := by
  unfold appendRowSheet
  apply Nat.le_antisymm
  · apply lastRowList_le
    intro i hi
    rw [writeRowAt_rows]
    rw [List.getD_eq_getElem?_getD, List.getElem?_set_ne (by omega : sh.lastRow + 1 - 1 ≠ i),
      ← List.getD_eq_getElem?_getD, getD_padRows]
    exact lastRowList_lt sh.rows i
      (by have h0 : sh.lastRow = lastRowList sh.rows := rfl; omega)
  · apply lastRowList_ge
    have hrow := writeRowAt_row_at sh (sh.lastRow + 1) vals (by omega)
    rw [show sh.lastRow + 1 - 1 = sh.lastRow from by omega] at hrow
    rw [hrow]
    rw [rowHasContent, List.any_append]
    rw [show vals.any isPresent = true from hv]
    rfl


/-- After `appendLog_`, the LOG sheet holds exactly one more entry
appended to the base ledger (the prior LOG sheet, or the freshly
created header-only one). -/
lemma appendLog_logSheet (now : Nat) (key dn : String) (row : Nat) (ss : SS) :
    getSheetByName (appendLog now key dn row ss) LOG_SHEET =
      some (appendRowSheet (logBaseSheet ss) (logEntryCells now key dn row)) := by
  unfold appendLog logBaseSheet
  cases hg : getSheetByName ss LOG_SHEET with
  | some sh =>
    rw [getSheetByName_update_eq, hg]
    rfl
  | none =>
    rw [getSheetByName_update_eq, getSheetByName_update_eq, getSheetByName_insert_none ss _ hg]
    rfl


/-- `appendLog_` touches no sheet other than LOG. -/
lemma appendLog_other (now : Nat) (key dn : String) (row : Nat) (ss : SS) (m : String)
    (h : m ≠ LOG_SHEET) :
    getSheetByName (appendLog now key dn row ss) m = getSheetByName ss m := by
  unfold appendLog
  cases hg : getSheetByName ss LOG_SHEET with
  | some sh => rw [getSheetByName_update_ne _ _ _ _ h]
  | none =>
    rw [getSheetByName_update_ne _ _ _ _ h, getSheetByName_update_ne _ _ _ _ h,
      getSheetByName_insert_ne _ _ _ h]


/-- `rowWasLogged_` as a scan of the ledger region (the `last < 2`
guard coincides with scanning an empty region). -/
lemma rowWasLogged_eq (row : Nat) (ss : SS) :
    rowWasLogged row ss = match getSheetByName ss LOG_SHEET with
      | none => false
      | some log => (logColD log).any fun v => decide (jsNum v = some row) := by
  unfold rowWasLogged logColD
  cases hg : getSheetByName ss LOG_SHEET with
  | none => rfl
  | some log =>
    show (if log.lastRow < 2 then false
        else (List.map (fun i => log.cell (2 + i) 4) (List.range (log.lastRow - 1))).any
          fun v => decide (jsNum v = some row))
      = (List.map (fun i => log.cell (2 + i) 4) (List.range (log.lastRow - 1))).any
          fun v => decide (jsNum v = some row)
    by_cases hl : log.lastRow < 2
    · rw [if_pos hl]
      have h0 : log.lastRow - 1 = 0 := by omega
      rw [h0]
      rfl
    · rw [if_neg hl]


/-- A negative ledger scan means a zero match count. -/
lemma sheetLogCount_eq_zero {row : Nat} {log : Sheet}
    (h : ((logColD log).any fun v => decide (jsNum v = some row)) = false) :
    sheetLogCount row log = 0 := by
  unfold sheetLogCount
  rw [List.length_eq_zero, List.filter_eq_nil_iff]
  intro a ha
  rw [List.any_eq_false] at h
  exact h a ha


/-- A ledger entry always has content (its timestamp cell). -/
lemma logEntry_content (now : Nat) (key dn : String) (row : Nat) :
    rowHasContent (logEntryCells now key dn row) = true := by
  unfold logEntryCells rowHasContent
  have hd : isPresent (Cell.d now) = true := by
    simp [isPresent, emptyCell]
  simp [hd]


/-- Appending a ledger entry for `row` to a ledger with its header in
place raises the match count for `row` by exactly one and makes the
scan positive. -/
lemma sheetLog_append (log : Sheet) (now : Nat) (key dn : String) (row : Nat)
    (hL : 1 ≤ log.lastRow) :
    sheetLogCount row (appendRowSheet log (logEntryCells now key dn row))
      = sheetLogCount row log + 1
    ∧ ((logColD (appendRowSheet log (logEntryCells now key dn row))).any
        fun v => decide (jsNum v = some row)) = true := by
  have hlast : (appendRowSheet log (logEntryCells now key dn row)).lastRow = log.lastRow + 1 :=
    appendRowSheet_lastRow log _ (logEntry_content now key dn row)
  have hcol : logColD (appendRowSheet log (logEntryCells now key dn row))
      = logColD log ++ [Cell.n row] := by
    unfold logColD
    rw [hlast]
    rw [show log.lastRow + 1 - 1 = (log.lastRow - 1) + 1 from by omega]
    rw [List.range_succ, List.map_append]
    congr 1
    · apply List.map_congr_left
      intro i hi
      rw [List.mem_range] at hi
      unfold appendRowSheet
      exact writeRowAt_cell_ne log (log.lastRow + 1) _ (2 + i) 4 (by omega) (by omega) (by omega)
    · show [(appendRowSheet log (logEntryCells now key dn row)).cell (2 + (log.lastRow - 1)) 4]
        = [Cell.n row]
      rw [show 2 + (log.lastRow - 1) = log.lastRow + 1 from by omega]
      unfold appendRowSheet
      rw [writeRowAt_cell_at log (log.lastRow + 1) _ 4 (by omega) (by omega)
        (by show (4 : Nat) ≤ 4; exact Nat.le_refl 4)]
      rfl
  constructor
  · unfold sheetLogCount
    rw [hcol, List.filter_append]
    rw [show List.filter (fun v => decide (jsNum v = some row)) [Cell.n row]
        = [Cell.n row] from by simp [jsNum]]
    rw [List.length_append]
    rfl
  · rw [hcol, List.any_append]
    rw [show ([Cell.n row].any fun v => decide (jsNum v = some row)) = true from by simp [jsNum]]
    rw [Bool.or_true]


/-- `getOrCreateSheet_` either returns the store unchanged with an
existing sheet, or inserts one blank sheet under the returned name. -/
lemma getOrCreateSheet_state (name : String) (ss : SS) :
    ((getOrCreateSheet name ss).1 = ss
      ∧ (getSheetByName ss (getOrCreateSheet name ss).2).isSome = true)
    ∨ ((getOrCreateSheet name ss).1 = insertSheet ss (getOrCreateSheet name ss).2
      ∧ getSheetByName ss (getOrCreateSheet name ss).2 = none) := by
  cases hg : getSheetByName ss (jsTrim name) with
  | some sh =>
    have hval : getOrCreateSheet name ss = (ss, jsTrim name) := by
      simp only [getOrCreateSheet, hg]
    rw [hval]
    exact Or.inl ⟨rfl, by rw [hg]; rfl⟩
  | none =>
    cases hf : (sheetNames ss).find? fun nm => decide (jsUpper (jsTrim nm) = jsUpper (jsTrim name)) with
    | some m =>
      have hval : getOrCreateSheet name ss = (ss, m) := by
        simp only [getOrCreateSheet, hg, hf]
      rw [hval]
      exact Or.inl ⟨rfl, getSheetByName_isSome_of_mem (List.mem_of_find?_eq_some hf)⟩
    | none =>
      have hval : getOrCreateSheet name ss = (insertSheet ss (jsTrim name), jsTrim name) := by
        simp only [getOrCreateSheet, hg, hf]
      rw [hval]
      exact Or.inr ⟨rfl, hg⟩


/-- Inversion of a successful `routeRowSafe_` run: all guards passed,
and the final state is the destination write followed by the ledger
append. -/
lemma routeRowAux_success {now row : Nat} {ss : SS} {tname : String}
    (h : (routeRowAux now row ss).2 = some tname) :
    ∃ drop dest ss2 next,
      getSheetByName ss DROP_OFF_SHEET = some drop
      ∧ (readRowCells drop row 6).all isPresent = true
      ∧ rowWasLogged row ss = false
      ∧ lookupDestination ((readRowCells drop row 6).getD 2 emptyCell) ss = some dest
      ∧ dest.name ≠ ""
      ∧ (getOrCreateSheet dest.name ss).2 = tname
      ∧ ss2 = updateSheet (getOrCreateSheet dest.name ss).1 tname
          (fun sh => ensureHeaders sh (headerFor dest))
      ∧ next = nextRowByFirstNCols (getSheetD ss2 tname) 6
      ∧ (routeRowAux now row ss).1
          = appendLog now (buildKey (readRowCells drop row 6)) dest.name row
              (updateSheet ss2 tname (fun sh => sh.writeRowAt next (readRowCells drop row 6))) := by
  cases hd : getSheetByName ss DROP_OFF_SHEET with
  | none => simp [routeRowAux, hd] at h
  | some drop =>
    cases hall : (readRowCells drop row 6).all isPresent with
    | false => simp [routeRowAux, hd, hall] at h
    | true =>
      cases hlog : rowWasLogged row ss with
      | true => simp [routeRowAux, hd, hall, hlog] at h
      | false =>
        cases hdest : lookupDestination ((readRowCells drop row 6).getD 2 emptyCell) ss with
        | none =>
          rw [List.getD_eq_getElem?_getD] at hdest
          simp [routeRowAux, hd, hall, hlog, hdest] at h
        | some dest =>
          have hdest0 := hdest
          rw [List.getD_eq_getElem?_getD] at hdest
          by_cases hname : dest.name = ""
          · simp [routeRowAux, hd, hall, hlog, hdest, hname] at h
          · have htn : (getOrCreateSheet dest.name ss).2 = tname := by
              have h2 := h
              simp [routeRowAux, hd, hall, hlog, hdest, hname] at h2
              exact h2
            subst htn
            refine ⟨drop, dest, _, _, rfl, hall, rfl, hdest0, hname, rfl, rfl, rfl, ?_⟩
            simp [routeRowAux, hd, hall, hlog, hdest, hname]


/-- On a state where the row is already logged, `routeRowSafe_` is a
no-op regardless of lock outcome and timestamp. -/
lemma routeRow_noop {row : Nat} {ss : SS} (h : rowWasLogged row ss = true)
    (acq : Bool) (now : Nat) : routeRowSafe acq now row ss = ss := by
  rw [routeRowSafe_eq_body]
  cases hd : getSheetByName ss DROP_OFF_SHEET with
  | none => simp [routeRowAux, hd]
  | some drop =>
    cases hall : (readRowCells drop row 6).all isPresent with
    | false => simp [routeRowAux, hd, hall]
    | true => simp [routeRowAux, hd, hall, h]


/-- Replacing a non-matching element by a matching one raises a
`countP` by exactly one. -/
lemma countP_set_incr {α : Type} (p : α → Bool) : ∀ (l : List α) (i : Nat) (v d : α),
    i < l.length → p (l.getD i d) = false → p v = true →
    (l.set i v).countP p = l.countP p + 1 := by
  intro l
  induction l with
  | nil => intro i v d hi _ _; simp at hi
  | cons a as ih =>
    intro i v d hi hold hv
    cases i with
    | zero =>
      rw [List.set_cons_zero]
      rw [List.countP_cons, List.countP_cons]
      rw [List.getD_cons_zero] at hold
      rw [hold, hv]
      simp
    | succ i2 =>
      rw [List.set_cons_succ]
      rw [List.countP_cons, List.countP_cons]
      rw [List.getD_cons_succ] at hold
      rw [ih i2 v d (by simpa using hi) hold hv]
      omega


/-- `set` at a positive index commutes with dropping the head. -/
lemma drop_one_set {α : Type} (l : List α) (i : Nat) (v : α) (hi : 1 ≤ i) :
    (l.set i v).drop 1 = (l.drop 1).set (i - 1) v := by
  cases l with
  | nil => simp
  | cons a as =>
    cases i with
    | zero => omega
    | succ i2 => rfl


/-- `set` at the head disappears after dropping the head. -/
lemma drop_one_set_zero {α : Type} (l : List α) (v : α) :
    (l.set 0 v).drop 1 = l.drop 1 := by
  cases l <;> rfl


/-- Blank rows contribute nothing to a count that rejects them. -/
lemma countP_replicate_nil (n : Nat) (p : List Cell → Bool) (hp : p [] = false) :
    (List.replicate n ([] : List Cell)).countP p = 0 := by
  induction n with
  | zero => rfl
  | succ m ih =>
    rw [List.replicate_succ, List.countP_cons, ih, hp]
    rfl


/-- Padding with blank rows does not change the data-row count. -/
lemma countP_dropOne_padRows (rows : List (List Cell)) (n : Nat) (p : List Cell → Bool)
    (hp : p [] = false) :
    ((padRows rows n).drop 1).countP p = (rows.drop 1).countP p := by
  cases rows with
  | nil =>
    show (((List.replicate (n - 0) ([] : List Cell))).drop 1).countP p = 0
    rw [List.drop_replicate]
    exact countP_replicate_nil _ p hp
  | cons r rs =>
    show ((r :: rs ++ List.replicate (n - (r :: rs).length) []).drop 1).countP p
      = rs.countP p
    rw [List.cons_append]
    show (rs ++ List.replicate (n - (r :: rs).length) []).countP p = rs.countP p
    rw [List.countP_append, countP_replicate_nil _ p hp]
    omega


/-- The first-`N`-columns data test, phrased on the raw row list. -/
lemma rowDataFirstN_take (sh : Sheet) (N r : Nat) :
    rowDataFirstN sh N r = ((sh.rows.getD (r - 1) []).take N).any isPresent := by
  unfold rowDataFirstN readRowCells Sheet.cell
  induction N with
  | zero => rfl
  | succ m ih =>
    rw [List.range_succ, List.map_append, List.any_append, ih]
    rw [List.take_succ, List.any_append]
    congr 1
    cases hm : (sh.rows.getD (r - 1) [])[m]? with
    | none =>
      show (List.map (fun j => (sh.rows.getD (r - 1) []).getD (j + 1 - 1) emptyCell) [m]).any isPresent
        = (Option.toList none).any isPresent
      rw [show (List.map (fun j => (sh.rows.getD (r - 1) []).getD (j + 1 - 1) emptyCell) [m])
          = [(sh.rows.getD (r - 1) []).getD m emptyCell] from rfl]
      rw [List.getD_eq_getElem?_getD, hm]
      rfl
    | some x =>
      show (List.map (fun j => (sh.rows.getD (r - 1) []).getD (j + 1 - 1) emptyCell) [m]).any isPresent
        = (Option.toList (some x)).any isPresent
      rw [show (List.map (fun j => (sh.rows.getD (r - 1) []).getD (j + 1 - 1) emptyCell) [m])
          = [(sh.rows.getD (r - 1) []).getD m emptyCell] from rfl]
      rw [List.getD_eq_getElem?_getD, hm]
      rfl


/-- Writing the header row does not change the data-row count. -/
lemma dataRowCount6_writeRow1 (sh : Sheet) (vals : List Cell) :
    dataRowCount6 (sh.writeRowAt 1 vals) = dataRowCount6 sh := by
  unfold dataRowCount6
  rw [writeRowAt_rows]
  rw [show (1 : Nat) - 1 = 0 from rfl]
  rw [drop_one_set_zero]
  exact countP_dropOne_padRows sh.rows 1 _ rfl


/-- `ensureHeaders_` does not change the data-row count. -/
lemma ensureHeaders_dataCount (sh : Sheet) (header : List String) :
    dataRowCount6 (ensureHeaders sh header) = dataRowCount6 sh := by
  rw [show ensureHeaders sh header =
      if joinStr "|" ((readRowCells sh 1 header.length).map fun v => jsUpper (jsString v))
          ≠ joinStr "|" (header.map jsUpper) then sh.writeRowAt 1 (header.map Cell.s)
      else sh from rfl]
  split
  · exact dataRowCount6_writeRow1 sh _
  · rfl


/-- Writing a fully populated record into a row that held no data in
columns `1..6` raises the data-row count by exactly one. -/
lemma writeRowAt_dataCount (sh : Sheet) (next : Nat) (vals : List Cell)
    (h2 : 2 ≤ next) (hempty : rowDataFirstN sh 6 next = false)
    (hlen : vals.length = 6) (hvals : vals.all isPresent = true) :
    dataRowCount6 (sh.writeRowAt next vals) = dataRowCount6 sh + 1 := by
  unfold dataRowCount6
  rw [writeRowAt_rows]
  rw [drop_one_set _ _ _ (by omega)]
  have hnewrow : ((vals ++ ((padRows sh.rows next).getD (next - 1) []).drop vals.length).take 6).any
      isPresent = true := by
    rw [← hlen, List.take_left]
    have hne : vals ≠ [] := by
      intro hc
      rw [hc] at hlen
      cases hlen
    obtain ⟨x, hx⟩ := List.exists_mem_of_ne_nil vals hne
    rw [List.any_eq_true]
    exact ⟨x, hx, List.all_eq_true.mp hvals x hx⟩
  have hold : ((((padRows sh.rows next).drop 1).getD (next - 1 - 1) []).take 6).any
      isPresent = false := by
    rw [List.getD_eq_getElem?_getD, List.getElem?_drop]
    rw [show 1 + (next - 1 - 1) = next - 1 from by omega]
    rw [← List.getD_eq_getElem?_getD, getD_padRows]
    rw [← rowDataFirstN_take]
    exact hempty
  have hi : next - 1 - 1 < ((padRows sh.rows next).drop 1).length := by
    rw [List.length_drop, length_padRows]
    omega
  rw [countP_set_incr _ _ _ _ _ hi hold hnewrow]
  rw [countP_dropOne_padRows _ _ _ rfl]


/-- A row read yields exactly the requested number of cells. -/
lemma readRowCells_length (sh : Sheet) (r n : Nat) : (readRowCells sh r n).length = n := by
  unfold readRowCells
  rw [List.length_map, List.length_range]


/-- **C1**.  After the first successful `routeRowSafe_(row)` run
(success = the body reached the write-and-log step, reported by
`routeRowAux` as the written destination `tname`), the ledger holds
exactly one entry whose row column numerically equals `row`, the row
reads as logged, every further invocation — any number, any lock
outcomes, any timestamps — leaves the state literally unchanged, and
the destination holds exactly one new record.  The hypotheses
`tname ≠ LOG_SHEET` (the configuration does not name the engine's own
ledger tab as a destination) and `ledgerReady` (a pre-existing ledger
has its header row, as every ledger created by `appendLog_` does) are
the spec's own data-model assumptions. -/
theorem routeRow_idempotent (now row : Nat) (ss : SS) (tname : String)
    (hsucc : (routeRowAux now row ss).2 = some tname)
    (htname : tname ≠ LOG_SHEET)
    (hready : ledgerReady ss = true) :
    ledgerCount row (routeRowAux now row ss).1 = 1
    ∧ rowWasLogged row (routeRowAux now row ss).1 = true
    ∧ (∀ invs : List (Bool × Nat),
        invs.foldl (fun s p => routeRowSafe p.1 p.2 row s) (routeRowAux now row ss).1
          = (routeRowAux now row ss).1)
    ∧ dataRowCount6 (getSheetD (routeRowAux now row ss).1 tname)
        = dataRowCount6 (getSheetD ss tname) + 1 := by
  obtain ⟨drop, dest, ss2, next, hd, hall, hlogf, hdest, hname, htn, hss2, hnext, heq⟩ :=
    routeRowAux_success hsucc
  have hpr1log : getSheetByName (getOrCreateSheet dest.name ss).1 LOG_SHEET
      = getSheetByName ss LOG_SHEET := by
    rcases getOrCreateSheet_state dest.name ss with ⟨hpr, _⟩ | ⟨hpr, _⟩
    · rw [hpr]
    · rw [hpr, htn, getSheetByName_insert_ne _ _ _ (Ne.symm htname)]
  have hss2log : getSheetByName ss2 LOG_SHEET = getSheetByName ss LOG_SHEET := by
    rw [hss2, getSheetByName_update_ne _ _ _ _ (Ne.symm htname), hpr1log]
  have hss3log : getSheetByName (updateSheet ss2 tname
      (fun sh => sh.writeRowAt next (readRowCells drop row 6))) LOG_SHEET
      = getSheetByName ss LOG_SHEET := by
    rw [getSheetByName_update_ne _ _ _ _ (Ne.symm htname), hss2log]
  have hbase3 : logBaseSheet (updateSheet ss2 tname
      (fun sh => sh.writeRowAt next (readRowCells drop row 6))) = logBaseSheet ss := by
    unfold logBaseSheet
    rw [hss3log]
  have hfinlog : getSheetByName (routeRowAux now row ss).1 LOG_SHEET
      = some (appendRowSheet (logBaseSheet ss)
          (logEntryCells now (buildKey (readRowCells drop row 6)) dest.name row)) := by
    rw [heq, appendLog_logSheet, hbase3]
  have hbaseL : 1 ≤ (logBaseSheet ss).lastRow := by
    unfold logBaseSheet
    cases hgl : getSheetByName ss LOG_SHEET with
    | none => decide
    | some log =>
      unfold ledgerReady at hready
      rw [hgl] at hready
      exact of_decide_eq_true hready
  have hbase0 : sheetLogCount row (logBaseSheet ss) = 0 := by
    unfold logBaseSheet
    cases hgl : getSheetByName ss LOG_SHEET with
    | none => rfl
    | some log =>
      rw [rowWasLogged_eq, hgl] at hlogf
      exact sheetLogCount_eq_zero hlogf
  obtain ⟨hcount, hany⟩ := sheetLog_append (logBaseSheet ss) now
    (buildKey (readRowCells drop row 6)) dest.name row hbaseL
  have hcount1 : ledgerCount row (routeRowAux now row ss).1 = 1 := by
    unfold ledgerCount
    rw [hfinlog]
    show sheetLogCount row (appendRowSheet (logBaseSheet ss)
      (logEntryCells now (buildKey (readRowCells drop row 6)) dest.name row)) = 1
    rw [hcount, hbase0]
  have hlogged1 : rowWasLogged row (routeRowAux now row ss).1 = true := by
    rw [rowWasLogged_eq, hfinlog]
    exact hany
  refine ⟨hcount1, hlogged1, ?_, ?_⟩
  · intro invs
    induction invs with
    | nil => rfl
    | cons p ps ih =>
      rw [List.foldl_cons, routeRow_noop hlogged1 p.1 p.2]
      exact ih
  · have hB : ∃ B, getSheetByName (getOrCreateSheet dest.name ss).1 tname = some B
        ∧ dataRowCount6 B = dataRowCount6 (getSheetD ss tname) := by
      rcases getOrCreateSheet_state dest.name ss with ⟨hpr, hsome⟩ | ⟨hpr, hnone⟩
      · rw [htn] at hsome
        obtain ⟨base0, hb0⟩ := Option.isSome_iff_exists.mp hsome
        refine ⟨base0, by rw [hpr]; exact hb0, ?_⟩
        unfold getSheetD
        rw [hb0]
        rfl
      · rw [htn] at hpr hnone
        refine ⟨emptySheet, ?_, ?_⟩
        · rw [hpr]
          exact getSheetByName_insert_none ss tname hnone
        · unfold getSheetD
          rw [hnone]
          rfl
    obtain ⟨B, hB1, hB2⟩ := hB
    have hss2t : getSheetByName ss2 tname = some (ensureHeaders B (headerFor dest)) := by
      rw [hss2, getSheetByName_update_eq, hB1]
      rfl
    have htarget : getSheetD ss2 tname = ensureHeaders B (headerFor dest) := by
      unfold getSheetD
      rw [hss2t]
      rfl
    have hss3t : getSheetByName (updateSheet ss2 tname
        (fun sh => sh.writeRowAt next (readRowCells drop row 6))) tname
        = some ((ensureHeaders B (headerFor dest)).writeRowAt next (readRowCells drop row 6)) := by
      rw [getSheetByName_update_eq, hss2t]
      rfl
    have hfint : getSheetD (routeRowAux now row ss).1 tname
        = (ensureHeaders B (headerFor dest)).writeRowAt next (readRowCells drop row 6) := by
      unfold getSheetD
      rw [heq, appendLog_other _ _ _ _ _ _ htname, hss3t]
      rfl
    have hnx := nextRow_basic (getSheetD ss2 tname) 6
    rw [hfint]
    rw [writeRowAt_dataCount _ next (readRowCells drop row 6)
      (by rw [hnext]; exact hnx.1)
      (by rw [← htarget, hnext]; exact hnx.2.2.2.1)
      (readRowCells_length drop row 6) hall]
    rw [ensureHeaders_dataCount, hB2]


/-- Witness for C1: routing row 2 of `exSS` succeeds into `ORDERS`,
yields one ledger entry and one destination record. -/
theorem routeRow_idempotent_witness :
    ledgerCount 2 (routeRowAux 7 2 exSS).1 = 1
      ∧ rowWasLogged 2 (routeRowAux 7 2 exSS).1 = true
      ∧ dataRowCount6 (getSheetD (routeRowAux 7 2 exSS).1 "ORDERS")
          = dataRowCount6 (getSheetD exSS "ORDERS") + 1 := by
  have h := routeRow_idempotent 7 2 exSS "ORDERS" (by decide) (by decide) (by decide)
  exact ⟨h.1, h.2.1, h.2.2.2⟩
